import Mathlib

/-!
# Guardian bot (`scripts/guardian.js`): a shallow embedding

The embedding follows `scripts/guardian.js` function by function.

* JavaScript strings are Lean strings; where the script depends on UTF-16 code units
  (`Array.prototype.sort`, `.length`) the code units are computed explicitly.
* A `BigNumber` (bignumber.js, default configuration: 20 decimal places, ROUND_HALF_UP)
  is either NaN or a finite exact value. `plus`, `minus`, `times` and the comparisons are
  exact; `div` rounds to 20 decimal places. The infinities are not represented.
* A JavaScript object is the list of its own enumerable string-keyed properties in
  `Object.keys` order. Assignment `o[k] = v` follows the ordinary property order of the
  language: array-index keys first, in ascending numeric order, then the other keys in
  creation order.
* Everything a heartbeat obtains from outside (contract reads, the fetched document, the
  `jsonpath` library, the clock, signing and broadcasting) is a field of `Env`; each call
  either returns a value or throws.
* `parseInt` results and timestamps are the integers the JavaScript numbers stand for;
  timestamps and window sizes are taken below `2 ^ 53`, where number arithmetic is exact.
  Where a number is handed to bignumber.js (`BN(threshold)`), the value read is the decimal
  that `String(number)` prints, which differs from the number itself above `2 ^ 53`.
-/

namespace Guardian

/-! ## JavaScript strings -/

/-- UTF-16 code units of one character. -/
def utf16Units (c : Char) : List Nat :=
  if c.toNat < 65536 then [c.toNat]
  else [55296 + (c.toNat - 65536) / 1024, 56320 + (c.toNat - 65536) % 1024]

/-- UTF-16 code units of a list of characters. -/
def utf16Chars : List Char → List Nat
  | [] => []
  | c :: cs => utf16Units c ++ utf16Chars cs

/-- UTF-16 code units of a string: what JavaScript sees. -/
def utf16 (s : String) : List Nat := utf16Chars s.data

/-- Lexicographic comparison of code unit sequences (less than or equal). -/
def unitsLe : List Nat → List Nat → Bool
  | [], _ => true
  | _ :: _, [] => false
  | a :: as, b :: bs => decide (a < b) || (decide (a = b) && unitsLe as bs)

/-- String comparison used by `Array.prototype.sort()` without a comparator. -/
def jsStrLe (a b : String) : Prop := unitsLe (utf16 a) (utf16 b) = true

instance : DecidableRel jsStrLe := fun a b => by unfold jsStrLe; exact inferInstance

/-- Result of `keys.sort()`: ascending by UTF-16 code units. -/
def jsSort (keys : List String) : List String := keys.insertionSort jsStrLe

/-- The string `.length` of JavaScript. -/
def jsLength (s : String) : Nat := (utf16 s).length

/-! ## JavaScript numbers read by bignumber.js

`BN(n)` for a JavaScript number `n` parses `String(n)`: the shortest decimal that reads back
as the same double, the closest one to `n` among those. An integer up to `2 ^ 53` is printed
digit for digit. -/

/-- Search upwards for the least `e` at or after the given one with `v < 2 ^ (e + 1)`. -/
def binaryExponentFrom (v : Nat) (e : Nat) : Nat → Nat
  | 0 => e
  | fuel + 1 => if v < 2 ^ (e + 1) then e else binaryExponentFrom v (e + 1) fuel

/-- Exponent of the double `v`: `2 ^ e ≤ v < 2 ^ (e + 1)` (doubles are below `2 ^ 1024`). -/
def binaryExponent (v : Nat) : Nat := binaryExponentFrom v 0 1024

/-- Search upwards for the least `d` at or after the given one with `v < 10 ^ d`. -/
def decimalDigitsFrom (v : Nat) (d : Nat) : Nat → Nat
  | 0 => d
  | fuel + 1 => if v < 10 ^ d then d else decimalDigitsFrom v (d + 1) fuel

/-- Number of decimal digits of `v` (doubles are below `10 ^ 309`). -/
def decimalDigits (v : Nat) : Nat := decimalDigitsFrom v 0 310

/-- The decimal `x` reads back as the integer double `v > 2 ^ 53`: it lies within half a gap
of `v` (round to nearest, ties to the even mantissa; the gap below a power of two is half the
gap above it). -/
def readsBackAs (v x : Nat) : Bool :=
  let e := binaryExponent v
  let ulp := 2 ^ (e - 52)
  let evenMantissa := decide ((v / ulp) % 2 = 0)
  if v ≤ x then
    decide (2 * (x - v) < ulp) || (decide (2 * (x - v) = ulp) && evenMantissa)
  else
    let gap := if v = 2 ^ e then ulp else 2 * ulp
    decide (4 * (v - x) < gap) || (decide (4 * (v - x) = gap) && evenMantissa)

/-- Shortest decimal for `v`: the positive multiple of the largest power `10 ^ j` (from `j`
downwards) that reads back as `v`, the closer one of the two multiples around `v`. -/
def shortestFrom (v : Nat) : Nat → Nat
  | 0 => v
  | j + 1 =>
    let a := v / 10 ^ (j + 1) * 10 ^ (j + 1)
    let b := a + 10 ^ (j + 1)
    let okA := decide (0 < a) && readsBackAs v a
    let okB := readsBackAs v b
    if okA && okB then (if v - a ≤ b - v then a else b)
    else if okA then a
    else if okB then b
    else shortestFrom v j

/-- The integer that `String(v)` prints for a non-negative integer double `v`. -/
def numberToDecimalNat (v : Nat) : Nat :=
  if v ≤ 2 ^ 53 then v else shortestFrom v (decimalDigits v)

/-- The integer that `String(n)` prints for an integer double `n`, which is what `BN(n)`
reads. -/
def numberToDecimal (n : Int) : Int := Int.sign n * (numberToDecimalNat n.natAbs : Int)

/-! ## bignumber.js -/

/-- A bignumber.js value: NaN or a finite exact number. -/
inductive BigNumber where
  | nan
  | fin (q : ℚ)
deriving DecidableEq

namespace BigNumber

/-- Rounding to 20 decimal places, ties away from zero (DECIMAL_PLACES = 20, ROUND_HALF_UP). -/
def round20 (q : ℚ) : ℚ :=
  if 0 ≤ q then (⌊q * 10 ^ 20 + 1 / 2⌋ : ℤ) / 10 ^ 20
  else -((⌊-q * 10 ^ 20 + 1 / 2⌋ : ℤ) / 10 ^ 20)

/-- The method `x.plus(y)`. -/
def plus : BigNumber → BigNumber → BigNumber
  | fin a, fin b => fin (a + b)
  | _, _ => nan

/-- The method `x.minus(y)`. -/
def minus : BigNumber → BigNumber → BigNumber
  | fin a, fin b => fin (a - b)
  | _, _ => nan

/-- The method `x.times(y)`. -/
def times : BigNumber → BigNumber → BigNumber
  | fin a, fin b => fin (a * b)
  | _, _ => nan

/-- The method `x.div(y)`: the quotient rounded to 20 decimal places. The script only divides
by the constant 1000; a zero divisor (an infinity in bignumber.js) is outside this model and
gives `nan` here. -/
def div : BigNumber → BigNumber → BigNumber
  | fin a, fin b => if b = 0 then nan else fin (round20 (a / b))
  | _, _ => nan

/-- The method `x.gt(y)`: false when either side is NaN. -/
def gt : BigNumber → BigNumber → Bool
  | fin a, fin b => decide (b < a)
  | _, _ => false

/-- The method `x.lt(y)`: false when either side is NaN. -/
def lt : BigNumber → BigNumber → Bool
  | fin a, fin b => decide (a < b)
  | _, _ => false

/-- The value `BN(10).pow(n)` for a non-negative integer `n`. -/
def pow10 (n : Nat) : BigNumber := fin (10 ^ n)

/-- The value `BN(n)` for an integer JavaScript number `n`: bignumber.js parses `String(n)`. -/
def ofNumber (n : Int) : BigNumber := fin (numberToDecimal n)

end BigNumber

/-! ## JSON values and objects -/

/-- A JavaScript value as produced by `JSON.parse`, plus `undefined`. Numbers carry the exact
decimal value that `BN(...)` reads from them. -/
inductive JsVal where
  | undefined
  | null
  | bool (b : Bool)
  | num (q : ℚ)
  | str (s : String)
  | arr (items : List JsVal)
  | obj (members : List (String × JsVal))

/-- Own properties of an object, in `Object.keys` order. -/
abbrev JsObject := List (String × JsVal)

/-- Array index of a property key: the key is the canonical decimal string of a number below
`2^32 - 1`. -/
def arrayIndex? (k : String) : Option Nat :=
  let n := k.data.foldl (fun acc d => 10 * acc + (d.toNat - 48)) 0
  if toString n = k ∧ n < 4294967295 then some n else none

/-- The call `Object.keys(o)`. -/
def objKeys (o : JsObject) : List String := o.map Prod.fst

/-- The read `o[key]` of an own property; `undefined` when there is no such own property
(names inherited from `Object.prototype` are not read through this function). -/
def objGet (o : JsObject) (key : String) : JsVal :=
  match o.find? (fun e => e.1 = key) with
  | some e => e.2
  | none => JsVal.undefined

/-- Creation of a new array-index property: it is enumerated after the smaller indices and
before everything else. -/
def insertIndex (n : Nat) (e : String × JsVal) : JsObject → JsObject
  | [] => [e]
  | x :: xs =>
    match arrayIndex? x.1 with
    | some m => if m < n then x :: insertIndex n e xs else e :: x :: xs
    | none => e :: x :: xs

/-- The assignment `o[key] = v` on an object whose prototype is `Object.prototype`. An
existing own property keeps its place. Otherwise the key `__proto__` reaches the setter
inherited from `Object.prototype`: no own property is created (the prototype of `o`, which
this model does not carry, is replaced when `v` is an object). A new array-index key is
placed by `insertIndex`; any other new key goes last. -/
def objSet (o : JsObject) (key : String) (v : JsVal) : JsObject :=
  if key ∈ objKeys o then o.map (fun e => if e.1 = key then (key, v) else e)
  else if key = "__proto__" then o
  else
    match arrayIndex? key with
    | some n => insertIndex n (key, v) o
    | none => o ++ [(key, v)]

/-! ## Stream state and the environment of one heartbeat -/

/-- A thrown error (the message is not interpreted). -/
abbrev Err := String

/-- One entry of the global `states` array. -/
structure StreamState where
  /-- the contract handle (identified by its address) -/
  stream : String
  source : String
  selector : String
  windowSize : Int
  deviation : Int
  decimal : Nat
  lastUpdated : Int
  lastPrice : BigNumber
deriving DecidableEq

/-- Everything one heartbeat obtains from outside the script. Remote reads, the clock and the
submissions are indexed by the position of the stream they are made for. -/
structure Env where
  /-- The list `config.streams`. -/
  streams : List String
  /-- The string `'0x' + process.env.PK`. -/
  privateKey : String
  /-- The read `stream.methods.source().call()`. -/
  source : Nat → Except Err String
  /-- The read `stream.methods.selector().call()`. -/
  selector : Nat → Except Err String
  /-- The read `parseInt(stream.methods.windowSize().call())`. -/
  windowSize : Nat → Except Err Int
  /-- The read `parseInt(stream.methods.deviation().call())`. -/
  deviation : Nat → Except Err Int
  /-- The read `parseInt(stream.methods.decimal().call())`. -/
  decimal : Nat → Except Err Nat
  /-- The read `parseInt(stream.methods.numPoints().call())`. -/
  numPoints : Nat → Except Err Int
  /-- The read `stream.methods.latestResult().call()` as the pair
  `(BN(_lastPrice), parseInt(_lastUpdatedTime))`. -/
  latestResult : Nat → Except Err (BigNumber × Int)
  /-- The document: `fetch(config.coingeckoMegaSource)` followed by `resp.json()`. -/
  fetchJson : Except Err JsVal
  /-- The call `jp.value(obj, path)` of the jsonpath library. -/
  jpValue : JsVal → String → Except Err JsVal
  /-- The value `BN(v)` for a string or an array `v` (bignumber.js parses `String(v)`). -/
  bnCoerce : JsVal → BigNumber
  /-- The clock `parseInt((new Date()).getTime() / 1000)` as read while stream `i` is
  examined. -/
  now : Nat → Int
  /-- The call `web3.eth.accounts.signTransaction(...)` for stream `i`. -/
  signTransaction : Nat → Except Err Unit
  /-- The call `web3.eth.sendSignedTransaction(...)` for stream `i`, awaited. -/
  sendSignedTransaction : Nat → Except Err Unit

/-- The conversion `BN(v)` of a looked-up value. Without `BigNumber.DEBUG` nothing throws:
what is not numeric becomes NaN. -/
def BN (env : Env) : JsVal → BigNumber
  | JsVal.num q => BigNumber.fin q
  | JsVal.undefined => BigNumber.nan
  | JsVal.null => BigNumber.nan
  | JsVal.bool _ => BigNumber.nan
  | JsVal.obj _ => BigNumber.nan
  | JsVal.str s => env.bnCoerce (JsVal.str s)
  | JsVal.arr items => env.bnCoerce (JsVal.arr items)

/-! ## The functions of `guardian.js` -/

/-- Body of the loop of `init` for the stream at position `i`. -/
def initStream (env : Env) (i : Nat) (address : String) : Except Err StreamState :=
  match env.source i with
  | Except.error e => Except.error e
  | Except.ok source =>
  match env.selector i with
  | Except.error e => Except.error e
  | Except.ok selector =>
  match env.windowSize i with
  | Except.error e => Except.error e
  | Except.ok windowSize =>
  match env.deviation i with
  | Except.error e => Except.error e
  | Except.ok deviation =>
  match env.decimal i with
  | Except.error e => Except.error e
  | Except.ok decimal =>
    let state : StreamState :=
      { stream := address, source := source, selector := selector, windowSize := windowSize,
        deviation := deviation, decimal := decimal, lastUpdated := 0,
        lastPrice := BigNumber.fin 0 }
    match env.numPoints i with
    | Except.error e => Except.error e
    | Except.ok len =>
      if len > 0 then
        match env.latestResult i with
        | Except.error e => Except.error e
        | Except.ok last =>
          Except.ok { state with lastPrice := last.1, lastUpdated := last.2 }
      else Except.ok state

/-- The loop of `init` from position `i`: the states pushed, and the error thrown if any. -/
def initLoop (env : Env) : Nat → List String → List StreamState × Option Err
  | _, [] => ([], none)
  | i, address :: rest =>
    match initStream env i address with
    | Except.error e => ([], some e)
    | Except.ok state =>
      let r := initLoop env (i + 1) rest
      (state :: r.1, r.2)

/-- The function `init`, called with an empty `states`: the new `states` and the error thrown,
if any. -/
def init (env : Env) : List StreamState × Option Err :=
  if jsLength env.privateKey = 66 then initLoop env 0 env.streams
  else ([], some "Please export hex-formatted private key into env without leading '0x'")

/-- The loop of `sync` from position `i`: the array after the in-place updates, and the error
thrown if any. -/
def syncLoop (env : Env) : Nat → List StreamState → List StreamState × Option Err
  | _, [] => ([], none)
  | i, state :: rest =>
    match env.deviation i with
    | Except.error e => (state :: rest, some e)
    | Except.ok d =>
      let state1 := { state with deviation := d }
      match env.latestResult i with
      | Except.error e => (state1 :: rest, some e)
      | Except.ok last =>
        let state2 := { state1 with lastPrice := last.1, lastUpdated := last.2 }
        let r := syncLoop env (i + 1) rest
        (state2 :: r.1, r.2)

/-- The function `sync`. -/
def sync (env : Env) (states : List StreamState) : List StreamState × Option Err :=
  syncLoop env 0 states

/-- JavaScript `selector.split('.')` on characters. -/
def splitDot : List Char → List (List Char)
  | [] => [[]]
  | c :: cs =>
    if c = '.' then [] :: splitDot cs
    else
      match splitDot cs with
      | [] => [[c]]
      | seg :: segs => (c :: seg) :: segs

/-- JavaScript `parts.join('')`. -/
def joinEmpty : List String → String
  | [] => ""
  | part :: rest => part ++ joinEmpty rest

/-- The function `normalizeSelector`. -/
def normalizeSelector (selector : String) : String :=
  if '-' ∉ selector.data then selector
  else
    joinEmpty (((splitDot selector.data).map String.mk).mapIdx
      (fun i val => if i = 0 then val else "[\"" ++ val ++ "\"]"))

/-- The function `normalizeResponseJson` on an object. -/
def normalizeResponseJson (respJson : JsObject) : JsObject :=
  (jsSort (objKeys respJson)).foldl (fun result key => objSet result key (objGet respJson key)) []

/-- The loop of `queryCoingeckoStreamsData` over `states`. -/
def queryLoop (env : Env) (respJson : JsVal) : List StreamState → Except Err (List BigNumber)
  | [] => Except.ok []
  | state :: rest =>
    match env.jpValue respJson (normalizeSelector state.selector) with
    | Except.error e => Except.error e
    | Except.ok data =>
      match queryLoop env respJson rest with
      | Except.error e => Except.error e
      | Except.ok ret => Except.ok ((BN env data).times (BigNumber.pow10 state.decimal) :: ret)

/-- The function `queryCoingeckoStreamsData`. -/
def queryCoingeckoStreamsData (env : Env) (states : List StreamState) :
    Except Err (List BigNumber) :=
  match env.fetchJson with
  | Except.error e => Except.error e
  | Except.ok respJson => queryLoop env respJson states

/-- The function `deviated`. -/
def deviated (p1 p0 : BigNumber) (threshold : Int) : Bool :=
  if threshold = 0 then false
  else
    p1.gt ((((BigNumber.ofNumber 1000).plus (BigNumber.ofNumber threshold)).div
        (BigNumber.ofNumber 1000)).times p0)
    || p1.lt ((((BigNumber.ofNumber 1000).minus (BigNumber.ofNumber threshold)).div
        (BigNumber.ofNumber 1000)).times p0)

/-- The function `pullTriggerStream` for the stream at position `i`: signing, then the awaited
broadcast. A rejection of either is rethrown by `await`; the `'error'` listener only logs.
The confirmation listener runs after the function returned and is not part of the cycle. -/
def pullTriggerStream (env : Env) (i : Nat) : Except Err Unit :=
  match env.signTransaction i with
  | Except.error e => Except.error e
  | Except.ok _ => env.sendSignedTransaction i

/-- What a heartbeat does that can be observed. -/
inductive Event where
  /-- The line `console.error('@@@@@@ No stream to watch, exit!')`. -/
  | noStream
  /-- call of `init` -/
  | init
  /-- call of `sync` -/
  | sync
  /-- call of `queryCoingeckoStreamsData` -/
  | query
  /-- the log line ending in `Deviation trigger` for stream `i` -/
  | deviationTrigger (i : Nat)
  /-- the log line ending in `Timer trigger` for stream `i` -/
  | timerTrigger (i : Nat)
  /-- call of `pullTriggerStream(states[i])` -/
  | pullTrigger (i : Nat)
  /-- the call `setTimeout(heartbeat, config.heartbeat)` -/
  | schedule
deriving DecidableEq

/-- How a heartbeat ends. -/
inductive Outcome where
  /-- The call `process.exit(code)`. -/
  | exit (code : Nat)
  /-- an exception left the function (its promise is rejected) -/
  | threw (e : Err)
  /-- the function ran to its end -/
  | returned
deriving DecidableEq

/-- Result of one heartbeat: the `states` array afterwards, the events in order, the outcome. -/
structure Cycle where
  states : List StreamState
  events : List Event
  outcome : Outcome
deriving DecidableEq

/-- The log line chosen in the loop of `heartbeat` once a stream is not skipped. -/
def triggerLog (i : Nat) (isDeviated isExpired : Bool) : List Event :=
  if isDeviated then [Event.deviationTrigger i]
  else if isExpired then [Event.timerTrigger i]
  else []

/-- The `for` loop of `heartbeat` from position `i`, over the states paired with `data`
(`queryCoingeckoStreamsData` returns one entry per state): the events, and the error thrown
if any. -/
def heartbeatLoop (env : Env) : Nat → List (StreamState × BigNumber) → List Event × Option Err
  | _, [] => ([], none)
  | i, (state, datum) :: rest =>
    let isDeviated := deviated datum state.lastPrice state.deviation
    let isExpired := decide (env.now i > state.lastUpdated + state.windowSize)
    if (!isDeviated && !isExpired) then heartbeatLoop env (i + 1) rest
    else
      match pullTriggerStream env i with
      | Except.error e => (triggerLog i isDeviated isExpired ++ [Event.pullTrigger i], some e)
      | Except.ok _ =>
        let r := heartbeatLoop env (i + 1) rest
        (triggerLog i isDeviated isExpired ++ Event.pullTrigger i :: r.1, r.2)

/-- The part of `heartbeat` after `init` or `sync` returned normally. -/
def heartbeatQuery (env : Env) (states : List StreamState) (pre : List Event) : Cycle :=
  match queryCoingeckoStreamsData env states with
  | Except.error e => ⟨states, pre ++ [Event.query], Outcome.threw e⟩
  | Except.ok data =>
    match heartbeatLoop env 0 (states.zip data) with
    | (evs, some e) => ⟨states, pre ++ Event.query :: evs, Outcome.threw e⟩
    | (evs, none) => ⟨states, pre ++ Event.query :: evs ++ [Event.schedule], Outcome.returned⟩

/-- The function `heartbeat`, run on the current `states`. -/
def heartbeat (env : Env) (states : List StreamState) : Cycle :=
  if env.streams.length = 0 then ⟨states, [Event.noStream], Outcome.exit 1⟩
  else if states.length = 0 then
    match init env with
    | (states1, some e) => ⟨states1, [Event.init], Outcome.threw e⟩
    | (states1, none) => heartbeatQuery env states1 [Event.init]
  else
    match sync env states with
    | (states1, some e) => ⟨states1, [Event.sync], Outcome.threw e⟩
    | (states1, none) => heartbeatQuery env states1 [Event.sync]


/-! ## Specification-side definitions -/

/-- Segments written with a dot between neighbours. -/
def dotJoin : List String → String
  | [] => ""
  | [seg] => seg
  | seg :: next :: rest => seg ++ "." ++ dotJoin (next :: rest)


/-- Enumeration order of the keys of an object built by assigning keys in ascending
code-unit order: array indices first, ascending by value, then the other keys ascending by
code units. -/
def keyOrderLe (a b : String) : Prop :=
  match arrayIndex? a, arrayIndex? b with
  | some m, some n => m ≤ n
  | some _, none => True
  | none, some _ => False
  | none, none => jsStrLe a b

instance : DecidableRel keyOrderLe := fun a b => by
  unfold keyOrderLe
  split <;> exact inferInstance

/-- The order `keyOrderLe` on properties, by key. -/
def entryLe (x y : String × JsVal) : Prop := keyOrderLe x.1 y.1

instance : DecidableRel entryLe := fun x y => by unfold entryLe; exact inferInstance

/-- Stream `j` is not skipped by the loop of `heartbeat`. -/
def fires (env : Env) (j : Nat) (sd : StreamState × BigNumber) : Prop :=
  deviated sd.2 sd.1.lastPrice sd.1.deviation = true ∨
    env.now j > sd.1.lastUpdated + sd.1.windowSize

/-- An event about stream `j`. -/
def Event.about (j : Nat) (ev : Event) : Prop :=
  ev = Event.deviationTrigger j ∨ ev = Event.timerTrigger j ∨ ev = Event.pullTrigger j


/-! ## A reference evaluator for simple paths

The library function `jp.value` is a field of `Env`. The evaluator below implements it for
the paths made of `$` followed by child steps `.name`, `.*`, `["name"]` and `[*]`; it is
used to run the script on concrete documents. With `jp.value` the library asks for at most
one match, so every step keeps the first match only. -/

/-- One child step of a path. -/
inductive PathStep where
  | member (name : String)
  | wildcard
deriving DecidableEq

/-- States of the scanner of path strings. -/
inductive PathScan where
  | next
  | dot
  | ident (acc : List Char)
  | bracket
  | quoted (acc : List Char)
  | close

/-- First character of an identifier: `[a-zA-Z_]`. -/
def isIdentStart (c : Char) : Bool := c.isAlpha || c = '_'

/-- Later character of an identifier: `[a-zA-Z0-9_]`. -/
def isIdentChar (c : Char) : Bool := c.isAlphanum || c = '_'

/-- Scanner of the steps after the leading `$`; `none` for a string that is not a path of the
supported form. -/
def scanPath : PathScan → List Char → Option (List PathStep)
  | PathScan.next, [] => some []
  | PathScan.next, c :: cs =>
    if c = '.' then scanPath PathScan.dot cs
    else if c = '[' then scanPath PathScan.bracket cs
    else none
  | PathScan.dot, [] => none
  | PathScan.dot, c :: cs =>
    if c = '*' then (scanPath PathScan.next cs).map (fun steps => PathStep.wildcard :: steps)
    else if isIdentStart c then scanPath (PathScan.ident [c]) cs
    else none
  | PathScan.ident acc, [] => some [PathStep.member (String.mk acc.reverse)]
  | PathScan.ident acc, c :: cs =>
    if isIdentChar c then scanPath (PathScan.ident (c :: acc)) cs
    else if c = '.' then
      (scanPath PathScan.dot cs).map
        (fun steps => PathStep.member (String.mk acc.reverse) :: steps)
    else if c = '[' then
      (scanPath PathScan.bracket cs).map
        (fun steps => PathStep.member (String.mk acc.reverse) :: steps)
    else none
  | PathScan.bracket, [] => none
  | PathScan.bracket, c :: cs =>
    if c = '*' then (scanPath PathScan.close cs).map (fun steps => PathStep.wildcard :: steps)
    else if c = '"' then scanPath (PathScan.quoted []) cs
    else none
  | PathScan.quoted _, [] => none
  | PathScan.quoted acc, c :: cs =>
    if c = '"' then
      (scanPath PathScan.close cs).map
        (fun steps => PathStep.member (String.mk acc.reverse) :: steps)
    else if c = '\\' then none
    else scanPath (PathScan.quoted (c :: acc)) cs
  | PathScan.close, [] => none
  | PathScan.close, c :: cs => if c = ']' then scanPath PathScan.next cs else none

/-- Property names every object inherits from `Object.prototype`; the library tests
`key in value`, so these always match. The evaluator does not cover them. -/
def inheritedNames : List String :=
  ["constructor", "hasOwnProperty", "isPrototypeOf", "propertyIsEnumerable", "toLocaleString",
    "toString", "valueOf", "__proto__", "__defineGetter__", "__defineSetter__",
    "__lookupGetter__", "__lookupSetter__"]

/-- One step from the current match. `JsVal.undefined` stands for "no match". -/
def stepValue (v : JsVal) (step : PathStep) : Except Err JsVal :=
  match step, v with
  | PathStep.member name, JsVal.obj members =>
    if name ∈ inheritedNames then Except.error "unsupported: inherited property"
    else Except.ok (objGet members name)
  | PathStep.member _, JsVal.arr _ => Except.error "unsupported: member of an array"
  | PathStep.member _, _ => Except.ok JsVal.undefined
  | PathStep.wildcard, JsVal.obj members =>
    match members with
    | [] => Except.ok JsVal.undefined
    | first :: _ => Except.ok first.2
  | PathStep.wildcard, JsVal.arr items =>
    match items with
    | [] => Except.ok JsVal.undefined
    | first :: _ => Except.ok first
  | PathStep.wildcard, _ => Except.ok JsVal.undefined

/-- All steps in order. -/
def stepsValue : JsVal → List PathStep → Except Err JsVal
  | v, [] => Except.ok v
  | v, step :: rest =>
    match stepValue v step with
    | Except.error e => Except.error e
    | Except.ok w => stepsValue w rest

/-- The evaluator: `jp.value(doc, path)` on the supported paths. The library asserts that
`doc` is an object (or array) and throws on a string it cannot parse. -/
def jpValueModel (doc : JsVal) (path : String) : Except Err JsVal :=
  match doc with
  | JsVal.obj _ | JsVal.arr _ =>
    match path.data with
    | [] => Except.error "we need a path"
    | c :: cs =>
      if c = '$' then
        match scanPath PathScan.next cs with
        | none => Except.error "parse error or unsupported path"
        | some steps => stepsValue doc steps
      else Except.error "parse error or unsupported path"
  | _ => Except.error "obj needs to be an object"

/-! ## Concrete environments -/

/-- An environment with two streams, `$.bitcoin.usd` and `$.huobi-token.usd`, whose windows
are 3600 seconds and whose deviation check is disabled; the last on-chain point of each is
the price 100 at time 1000. The document, the clock and the outcome of the broadcasts are
parameters. -/
def demoEnv (doc : JsVal) (now : Int) (sendFails : Nat → Bool) : Env where
  streams := ["0xaaaa", "0xbbbb"]
  privateKey := "0x0123456789abcdef0123456789abcdef0123456789abcdef0123456789abcdef"
  source := fun _ => Except.ok "coingecko"
  selector := fun i => Except.ok (if i = 0 then "$.bitcoin.usd" else "$.huobi-token.usd")
  windowSize := fun _ => Except.ok 3600
  deviation := fun _ => Except.ok 0
  decimal := fun _ => Except.ok 2
  numPoints := fun _ => Except.ok 1
  latestResult := fun _ => Except.ok (BigNumber.fin 100, 1000)
  fetchJson := Except.ok doc
  jpValue := jpValueModel
  bnCoerce := fun _ => BigNumber.nan
  now := fun _ => now
  signTransaction := fun _ => Except.ok ()
  sendSignedTransaction := fun i =>
    if sendFails i then Except.error "transaction failed" else Except.ok ()

/-- A document with both prices of `demoEnv`. -/
def demoDoc : JsVal :=
  JsVal.obj
    [("bitcoin", JsVal.obj [("usd", JsVal.num 1)]),
      ("huobi-token", JsVal.obj [("usd", JsVal.num 1)])]

/-- A document without the `huobi-token` entry. -/
def partialDoc : JsVal := JsVal.obj [("bitcoin", JsVal.obj [("usd", JsVal.num 1)])]

/-- The states of `demoEnv` as left by `init`. -/
def demoStates : List StreamState :=
  [{ stream := "0xaaaa", source := "coingecko", selector := "$.bitcoin.usd", windowSize := 3600,
      deviation := 0, decimal := 2, lastUpdated := 1000, lastPrice := BigNumber.fin 100 },
    { stream := "0xbbbb", source := "coingecko", selector := "$.huobi-token.usd",
      windowSize := 3600, deviation := 0, decimal := 2, lastUpdated := 1000,
      lastPrice := BigNumber.fin 100 }]

/-- The first stage of `heartbeat` returned normally: `init` on an empty state array, `sync`
otherwise, leaving `states`. -/
def Refreshed (env : Env) (states0 states : List StreamState) : Prop :=
  (states0 = [] ∧ init env = (states, none)) ∨ (states0 ≠ [] ∧ sync env states0 = (states, none))


/-- Members of the document `{ "b": 1, "a": 2 }`. -/
def unsortedMembers : JsObject := [("b", JsVal.num 1), ("a", JsVal.num 2)]

/-- A stream whose selector takes the first top-level value. -/
def wildcardState : StreamState :=
  { stream := "0xcccc", source := "coingecko", selector := "$.*", windowSize := 3600,
    deviation := 0, decimal := 0, lastUpdated := 1000, lastPrice := BigNumber.fin 100 }

/-- The states of `demoEnv` with out-of-date mutable fields. -/
def staleStates : List StreamState :=
  [{ stream := "0xaaaa", source := "coingecko", selector := "$.bitcoin.usd", windowSize := 3600,
      deviation := 30, decimal := 2, lastUpdated := 500, lastPrice := BigNumber.fin 90 },
    { stream := "0xbbbb", source := "coingecko", selector := "$.huobi-token.usd",
      windowSize := 3600, deviation := 30, decimal := 2, lastUpdated := 500,
      lastPrice := BigNumber.fin 95 }]

/-! ## The deviation rule -/

theorem round20_int_div_1000 (n : ℤ) :
    BigNumber.round20 ((n : ℚ) / 1000) = (n : ℚ) / 1000 := by
  unfold BigNumber.round20
  have h1 : ∀ m : ℤ, ((m : ℚ) / 1000) * 10 ^ 20 + 1 / 2 = ((m * 10 ^ 17 : ℤ) : ℚ) + 1 / 2 := by
    intro m; push_cast; ring
  have h2 : ∀ m : ℤ, ⌊((m : ℤ) : ℚ) + 1 / 2⌋ = m := by
    intro m
    rw [Int.floor_eq_iff]
    constructor <;> norm_num
  split_ifs with h
  · rw [h1, h2]; push_cast; ring
  · have h3 : -((n : ℚ) / 1000) = ((-n : ℤ) : ℚ) / 1000 := by push_cast; ring
    rw [h3, h1, h2]; push_cast; ring

theorem shortestFrom_pos (v : Nat) (hv : 0 < v) : ∀ j, 0 < shortestFrom v j := by
  intro j
  induction j with
  | zero => exact hv
  | succ j ih =>
    unfold shortestFrom
    simp only
    split_ifs with h1 h2 h3 h4
    · simp only [Bool.and_eq_true, decide_eq_true_eq] at h1
      exact h1.1.1
    · positivity
    · simp only [Bool.and_eq_true, decide_eq_true_eq] at h3
      exact h3.1
    · positivity
    · exact ih

theorem numberToDecimalNat_pos (v : Nat) (hv : 0 < v) : 0 < numberToDecimalNat v := by
  unfold numberToDecimalNat
  split_ifs
  · exact hv
  · exact shortestFrom_pos v hv _

theorem numberToDecimal_pos (t : ℤ) (ht : 0 < t) : 0 < numberToDecimal t := by
  unfold numberToDecimal
  rw [Int.sign_eq_one_of_pos ht, one_mul]
  have : 0 < t.natAbs := Int.natAbs_pos.mpr (ne_of_gt ht)
  exact_mod_cast numberToDecimalNat_pos _ this

theorem numberToDecimal_safe (t : ℤ) (ht : |t| ≤ 2 ^ 53) : numberToDecimal t = t := by
  unfold numberToDecimal numberToDecimalNat
  have h : t.natAbs ≤ 2 ^ 53 := by
    have : ((t.natAbs : ℤ)) ≤ 2 ^ 53 := by rw [Int.natCast_natAbs]; exact ht
    exact_mod_cast this
  rw [if_pos h]
  exact Int.sign_mul_natAbs t

theorem deviated_fin (p1 p0 : ℚ) (t : ℤ) :
    deviated (BigNumber.fin p1) (BigNumber.fin p0) t =
      (decide (t ≠ 0) && (decide (((1000 + numberToDecimal t : ℤ) : ℚ) / 1000 * p0 < p1)
        || decide (p1 < ((1000 - numberToDecimal t : ℤ) : ℚ) / 1000 * p0))) := by
  unfold deviated
  by_cases ht : t = 0
  · simp [ht]
  · have h1000 : numberToDecimal 1000 = 1000 := numberToDecimal_safe 1000 (by norm_num)
    have e1 : ((1000 : ℤ) : ℚ) + (numberToDecimal t : ℚ) =
        ((1000 + numberToDecimal t : ℤ) : ℚ) := by push_cast; ring
    have e2 : ((1000 : ℤ) : ℚ) - (numberToDecimal t : ℚ) =
        ((1000 - numberToDecimal t : ℤ) : ℚ) := by push_cast; ring
    have e3 : ((1000 : ℤ) : ℚ) = 1000 := by norm_num
    simp only [ht, if_false, BigNumber.ofNumber, h1000, BigNumber.plus, BigNumber.minus,
      BigNumber.div, BigNumber.times, BigNumber.gt, BigNumber.lt, e1, e2]
    simp only [e3, round20_int_div_1000]
    simp [ht]

/-- C1, counterexample. The threshold is the number `2 ^ 63`; `BN(threshold)` reads the
decimal `9223372036854776000` that JavaScript prints for it. With `p0 = 1000` and
`p1 = 9223372036854776900` the upper bound of the code is `9223372036854777000`, so
`deviated` is false, while `p1` exceeds `p0 * (1000 + 2 ^ 63) / 1000`. -/
theorem deviated_large_threshold :
    numberToDecimal 9223372036854775808 = 9223372036854776000 ∧
    deviated (BigNumber.fin 9223372036854776900) (BigNumber.fin 1000) 9223372036854775808 =
      false ∧
    ((9223372036854775808 : ℤ) ≠ 0 ∧
      ((9223372036854776900 : ℚ) > 1000 * (1000 + ((9223372036854775808 : ℤ) : ℚ)) / 1000 ∨
        (9223372036854776900 : ℚ) <
          1000 * (1000 - ((9223372036854775808 : ℤ) : ℚ)) / 1000)) := by
  have h : numberToDecimal 9223372036854775808 = 9223372036854776000 := by decide
  refine ⟨h, ?_, by norm_num, Or.inl (by norm_num)⟩
  rw [deviated_fin, h]
  norm_num

/-- C1, amended. For finite prices `p1`, `p0` and an integer threshold `t` with
`|t| ≤ 2 ^ 53`, `deviated p1 p0 t` is true exactly when `t ≠ 0` and
`p1 > p0 * (1000 + t) / 1000` or `p1 < p0 * (1000 - t) / 1000` in exact rational arithmetic
(the division by 1000 in bignumber.js loses nothing). For any integer threshold the same
holds with the decimal that JavaScript prints for `t` in place of `t`. It is false for all
values, NaN included, when `t = 0`. With `p0 = 100` and `t = 50` it is true for `p1 = 106`
and false for `p1 = 104`. -/
theorem deviated_spec :
    (∀ (p1 p0 : ℚ) (t : ℤ), |t| ≤ 2 ^ 53 →
      (deviated (BigNumber.fin p1) (BigNumber.fin p0) t = true ↔
        t ≠ 0 ∧ (p1 > p0 * (1000 + t) / 1000 ∨ p1 < p0 * (1000 - t) / 1000))) ∧
    (∀ (p1 p0 : ℚ) (t : ℤ),
      deviated (BigNumber.fin p1) (BigNumber.fin p0) t = true ↔
        t ≠ 0 ∧ (p1 > p0 * (1000 + numberToDecimal t) / 1000 ∨
          p1 < p0 * (1000 - numberToDecimal t) / 1000)) ∧
    (∀ p1 p0 : BigNumber, deviated p1 p0 0 = false) ∧
    deviated (BigNumber.fin 106) (BigNumber.fin 100) 50 = true ∧
    deviated (BigNumber.fin 104) (BigNumber.fin 100) 50 = false := by
  have hgen : ∀ (p1 p0 : ℚ) (t : ℤ),
      deviated (BigNumber.fin p1) (BigNumber.fin p0) t = true ↔
        t ≠ 0 ∧ (p1 > p0 * (1000 + numberToDecimal t) / 1000 ∨
          p1 < p0 * (1000 - numberToDecimal t) / 1000) := by
    intro p1 p0 t
    rw [deviated_fin]
    have a1 : ((1000 + numberToDecimal t : ℤ) : ℚ) / 1000 * p0 =
        p0 * (1000 + numberToDecimal t) / 1000 := by push_cast; ring
    have a2 : ((1000 - numberToDecimal t : ℤ) : ℚ) / 1000 * p0 =
        p0 * (1000 - numberToDecimal t) / 1000 := by push_cast; ring
    rw [a1, a2]
    simp
  have h50 : numberToDecimal 50 = 50 := numberToDecimal_safe 50 (by norm_num)
  refine ⟨?_, hgen, ?_, ?_, ?_⟩
  · intro p1 p0 t ht
    have := hgen p1 p0 t
    rw [numberToDecimal_safe t ht] at this
    exact this
  · intro p1 p0; simp [deviated]
  · rw [deviated_fin, h50]; norm_num
  · rw [deviated_fin, h50]; norm_num

theorem deviated_spec_witness :
    deviated (BigNumber.fin 106) (BigNumber.fin 100) 50 = true ↔
      (50 : ℤ) ≠ 0 ∧ ((106 : ℚ) > 100 * (1000 + ((50 : ℤ) : ℚ)) / 1000 ∨
        (106 : ℚ) < 100 * (1000 - ((50 : ℤ) : ℚ)) / 1000) :=
  deviated_spec.1 106 100 50 (by norm_num)

/-- C3. For every last price `p0 > 0` and every positive integer threshold `t` (also
`t ≥ 1000`), a fresh price equal to the last price is not deviated. -/
theorem deviated_same_price (p0 : ℚ) (t : ℤ) (hp : 0 < p0) (ht : 0 < t) :
    deviated (BigNumber.fin p0) (BigNumber.fin p0) t = false := by
  rw [deviated_fin]
  have ht' : (0 : ℚ) < numberToDecimal t := by exact_mod_cast numberToDecimal_pos t ht
  have h1 : ¬ (((1000 + numberToDecimal t : ℤ) : ℚ) / 1000 * p0 < p0) := by
    push_cast
    have : p0 ≤ (1000 + (numberToDecimal t : ℚ)) / 1000 * p0 := by
      have : (1 : ℚ) ≤ (1000 + (numberToDecimal t : ℚ)) / 1000 := by
        rw [le_div_iff₀ (by norm_num)]; linarith
      nlinarith
    linarith
  have h2 : ¬ (p0 < ((1000 - numberToDecimal t : ℤ) : ℚ) / 1000 * p0) := by
    push_cast
    have : (1000 - (numberToDecimal t : ℚ)) / 1000 * p0 ≤ p0 := by
      have : (1000 - (numberToDecimal t : ℚ)) / 1000 ≤ 1 := by
        rw [div_le_iff₀ (by norm_num)]; linarith
      nlinarith
    linarith
  rw [decide_eq_false h1, decide_eq_false h2]; simp

theorem deviated_same_price_witness :
    (0 : ℚ) < 100 ∧ (0 : ℤ) < 1500 ∧
      deviated (BigNumber.fin 100) (BigNumber.fin 100) 1500 = false :=
  ⟨by norm_num, by norm_num, deviated_same_price 100 1500 (by norm_num) (by norm_num)⟩

/-! ## Selector normalization -/

theorem splitDot_ne_nil (cs : List Char) : splitDot cs ≠ [] := by
  cases cs with
  | nil => simp [splitDot]
  | cons c cs =>
    unfold splitDot
    split_ifs
    · simp
    · split <;> simp

theorem splitDot_dotfree (a : List Char) (h : '.' ∉ a) : splitDot a = [a] := by
  induction a with
  | nil => rfl
  | cons c cs ih =>
    have hc : c ≠ '.' := fun e => h (by simp [e])
    have hcs : '.' ∉ cs := fun e => h (by simp [e])
    simp [splitDot, hc, ih hcs]

theorem splitDot_append_dot (a cs : List Char) (h : '.' ∉ a) :
    splitDot (a ++ '.' :: cs) = a :: splitDot cs := by
  induction a with
  | nil => simp [splitDot]
  | cons c as ih =>
    have hc : c ≠ '.' := fun e => h (by simp [e])
    have hcs : '.' ∉ as := fun e => h (by simp [e])
    simp [splitDot, hc, ih hcs]

theorem splitDot_dotJoin (s0 : String) (rest : List String)
    (h : ∀ seg ∈ s0 :: rest, '.' ∉ seg.data) :
    (splitDot (dotJoin (s0 :: rest)).data).map String.mk = s0 :: rest := by
  induction rest generalizing s0 with
  | nil =>
    simp [dotJoin, splitDot_dotfree _ (h s0 (by simp))]
  | cons s1 rest ih =>
    have h0 : '.' ∉ s0.data := h s0 (by simp)
    have h1 : ∀ seg ∈ s1 :: rest, '.' ∉ seg.data := fun seg hs => h seg (by simp [List.mem_cons] at hs ⊢; tauto)
    have := ih s1 h1
    simp only [dotJoin, String.data_append, List.append_assoc]
    show List.map String.mk (splitDot (s0.data ++ '.' :: (dotJoin (s1 :: rest)).data)) = _
    rw [splitDot_append_dot _ _ h0, List.map_cons, this]

theorem splitDot_free (cs : List Char) : ∀ seg ∈ splitDot cs, '.' ∉ seg := by
  induction cs with
  | nil => simp [splitDot]
  | cons c cs ih =>
    unfold splitDot
    by_cases hc : c = '.'
    · simp only [hc, if_true, List.mem_cons]
      rintro seg (rfl | h)
      · simp
      · exact ih seg h
    · simp only [hc, if_false]
      cases hsp : splitDot cs with
      | nil => exact absurd hsp (splitDot_ne_nil cs)
      | cons seg segs =>
        rw [hsp] at ih
        simp only [List.mem_cons]
        rintro x (rfl | h)
        · have := ih seg (by simp)
          simp only [List.mem_cons, not_or]
          exact ⟨fun e => hc e.symm, this⟩
        · exact ih x (by simp [h])

theorem dotJoin_splitDot (cs : List Char) :
    (dotJoin ((splitDot cs).map String.mk)).data = cs := by
  induction cs with
  | nil => rfl
  | cons c cs ih =>
    unfold splitDot
    by_cases hc : c = '.'
    · simp only [hc, if_true, List.map_cons]
      cases hsp : splitDot cs with
      | nil => exact absurd hsp (splitDot_ne_nil cs)
      | cons seg segs =>
        rw [hsp] at ih
        simp only [List.map_cons] at ih ⊢
        simp only [dotJoin, String.data_append, ih]
        rfl
    · simp only [hc, if_false]
      cases hsp : splitDot cs with
      | nil => exact absurd hsp (splitDot_ne_nil cs)
      | cons seg segs =>
        rw [hsp] at ih
        cases segs with
        | nil =>
          simp only [List.map_cons, List.map_nil, dotJoin] at ih ⊢
          simp [ih]
        | cons next rest =>
          simp only [List.map_cons, dotJoin, String.data_append] at ih ⊢
          rw [← ih]
          simp

theorem mapIdx_wrap (rest : List String) (k : Nat) :
    rest.mapIdx (fun i val => if i + (k + 1) = 0 then val else "[\"" ++ val ++ "\"]")
      = rest.map (fun val => "[\"" ++ val ++ "\"]") := by
  induction rest generalizing k with
  | nil => rfl
  | cons a rest ih =>
    rw [List.mapIdx_cons, List.map_cons]
    have := ih (k + 1)
    simp only [Nat.add_assoc] at this ⊢
    simp only [Nat.add_comm 1] at this ⊢
    rw [this]
    simp

/-- C4. A selector without `-` is returned unchanged. Every selector is its segments
`s0, s1, ..., sn` (none containing a dot) written with dots between them; if it contains `-`,
`normalizeSelector` returns `s0` followed by `["s1"]...["sn"]` with nothing in between. The
selector `$.huobi-token.usd` becomes `$["huobi-token"]["usd"]`. -/
theorem normalizeSelector_spec :
    (∀ s : String, '-' ∉ s.data → normalizeSelector s = s) ∧
    (∀ s : String, ∃ (s0 : String) (rest : List String),
      (∀ seg ∈ s0 :: rest, '.' ∉ seg.data) ∧ s = dotJoin (s0 :: rest)) ∧
    (∀ (s0 : String) (rest : List String), (∀ seg ∈ s0 :: rest, '.' ∉ seg.data) →
      '-' ∈ (dotJoin (s0 :: rest)).data →
      normalizeSelector (dotJoin (s0 :: rest)) =
        s0 ++ joinEmpty (rest.map (fun seg => "[\"" ++ seg ++ "\"]"))) ∧
    normalizeSelector "$.huobi-token.usd" = "$[\"huobi-token\"][\"usd\"]" := by
  refine ⟨?_, ?_, ?_, by decide⟩
  · intro s h
    simp [normalizeSelector, h]
  · intro s
    have hne := splitDot_ne_nil s.data
    cases hsp : splitDot s.data with
    | nil => exact absurd hsp hne
    | cons seg segs =>
      refine ⟨String.mk seg, segs.map String.mk, ?_, ?_⟩
      · intro x hx
        have hx' : x ∈ (splitDot s.data).map String.mk := by rw [hsp]; simpa using hx
        obtain ⟨y, hy, rfl⟩ := List.mem_map.mp hx'
        exact splitDot_free s.data y hy
      · have := dotJoin_splitDot s.data
        rw [hsp] at this
        exact String.ext this.symm
  · intro s0 rest hfree hdash
    unfold normalizeSelector
    rw [if_neg (not_not.mpr hdash), splitDot_dotJoin s0 rest hfree, List.mapIdx_cons]
    have := mapIdx_wrap rest 0
    simp only [Nat.zero_add] at this
    simp only [if_true, joinEmpty]
    rw [this]

/-! ## Key order and `normalizeResponseJson` -/

theorem char_toNat_valid (c : Char) : c.toNat < 55296 ∨ (57343 < c.toNat ∧ c.toNat < 1114112) := by
  have := c.valid
  simpa [UInt32.isValidChar, Nat.isValidChar, Char.toNat] using this

theorem char_eq_of_toNat (c d : Char) (h : c.toNat = d.toNat) : c = d := by
  rw [← Char.ofNat_toNat c, ← Char.ofNat_toNat d, h]

theorem utf16Chars_injective : ∀ a b : List Char, utf16Chars a = utf16Chars b → a = b := by
  intro a
  induction a with
  | nil =>
    intro b h
    cases b with
    | nil => rfl
    | cons d ds =>
      simp only [utf16Chars, utf16Units] at h
      split_ifs at h <;> simp at h
  | cons c cs ih =>
    intro b h
    cases b with
    | nil =>
      simp only [utf16Chars, utf16Units] at h
      split_ifs at h <;> simp at h
    | cons d ds =>
      have vc := char_toNat_valid c
      have vd := char_toNat_valid d
      simp only [utf16Chars, utf16Units] at h
      have key : c.toNat = d.toNat ∧ utf16Chars cs = utf16Chars ds := by
        split_ifs at h with h1 h2 h2
        · simp only [List.singleton_append, List.cons.injEq] at h
          exact h
        · simp only [List.singleton_append, List.cons_append, List.nil_append, List.cons.injEq] at h
          omega
        · simp only [List.singleton_append, List.cons_append, List.nil_append, List.cons.injEq] at h
          omega
        · simp only [List.cons_append, List.nil_append, List.cons.injEq] at h
          refine ⟨?_, h.2.2⟩
          omega
      rw [char_eq_of_toNat c d key.1, ih ds key.2]

theorem utf16_injective (a b : String) (h : utf16 a = utf16 b) : a = b :=
  String.ext (utf16Chars_injective _ _ h)

theorem unitsLe_refl : ∀ x : List Nat, unitsLe x x = true := by
  intro x
  induction x with
  | nil => rfl
  | cons a as ih => simp [unitsLe, ih]

theorem unitsLe_total : ∀ x y : List Nat, unitsLe x y = true ∨ unitsLe y x = true := by
  intro x
  induction x with
  | nil => intro y; left; rfl
  | cons a as ih =>
    intro y
    cases y with
    | nil => right; rfl
    | cons b bs =>
      simp only [unitsLe, Bool.or_eq_true, Bool.and_eq_true, decide_eq_true_eq]
      rcases Nat.lt_trichotomy a b with h | h | h
      · left; left; exact h
      · rcases ih bs with h2 | h2
        · left; right; exact ⟨h, h2⟩
        · right; right; exact ⟨h.symm, h2⟩
      · right; left; exact h

theorem unitsLe_trans : ∀ x y z : List Nat,
    unitsLe x y = true → unitsLe y z = true → unitsLe x z = true := by
  intro x
  induction x with
  | nil => intro y z _ _; rfl
  | cons a as ih =>
    intro y z hxy hyz
    cases y with
    | nil => simp [unitsLe] at hxy
    | cons b bs =>
      cases z with
      | nil => simp [unitsLe] at hyz
      | cons c cs =>
        simp only [unitsLe, Bool.or_eq_true, Bool.and_eq_true, decide_eq_true_eq] at hxy hyz ⊢
        rcases hxy with h1 | ⟨h1, h1'⟩
        · rcases hyz with h2 | ⟨h2, _⟩
          · left; omega
          · left; omega
        · rcases hyz with h2 | ⟨h2, h2'⟩
          · left; omega
          · right; exact ⟨by omega, ih bs cs h1' h2'⟩

theorem unitsLe_antisymm : ∀ x y : List Nat,
    unitsLe x y = true → unitsLe y x = true → x = y := by
  intro x
  induction x with
  | nil =>
    intro y _ h
    cases y with
    | nil => rfl
    | cons b bs => simp [unitsLe] at h
  | cons a as ih =>
    intro y hxy hyx
    cases y with
    | nil => simp [unitsLe] at hxy
    | cons b bs =>
      simp only [unitsLe, Bool.or_eq_true, Bool.and_eq_true, decide_eq_true_eq] at hxy hyx
      rcases hxy with h1 | ⟨h1, h1'⟩
      · rcases hyx with h2 | ⟨h2, _⟩ <;> omega
      · rcases hyx with h2 | ⟨_, h2'⟩
        · omega
        · rw [h1, ih bs h1' h2']

instance jsStrLe_total : IsTotal String jsStrLe := ⟨fun _ _ => unitsLe_total _ _⟩
instance jsStrLe_trans : IsTrans String jsStrLe := ⟨fun _ _ _ h1 h2 => unitsLe_trans _ _ _ h1 h2⟩
instance jsStrLe_antisymm : IsAntisymm String jsStrLe :=
  ⟨fun a b h1 h2 => utf16_injective a b (unitsLe_antisymm _ _ h1 h2)⟩
theorem arrayIndex_eq_some (k : String) (n : Nat) (h : arrayIndex? k = some n) :
    toString n = k := by
  unfold arrayIndex? at h
  simp only at h
  split_ifs at h with hc
  simp only [Option.some.injEq] at h
  rw [← h]; exact hc.1

instance keyOrderLe_total : IsTotal String keyOrderLe := ⟨fun a b => by
  unfold keyOrderLe
  cases arrayIndex? a <;> cases arrayIndex? b <;> simp
  · exact jsStrLe_total.total a b
  · omega⟩

instance keyOrderLe_trans : IsTrans String keyOrderLe := ⟨fun a b c => by
  unfold keyOrderLe
  cases arrayIndex? a <;> cases arrayIndex? b <;> cases arrayIndex? c <;> simp
  · exact jsStrLe_trans.trans a b c
  · omega⟩

instance keyOrderLe_antisymm : IsAntisymm String keyOrderLe := ⟨fun a b => by
  unfold keyOrderLe
  cases ha : arrayIndex? a <;> cases hb : arrayIndex? b <;> simp
  · exact jsStrLe_antisymm.antisymm a b
  · intro h1 h2
    have e : _ = _ := Nat.le_antisymm h1 h2
    rw [← arrayIndex_eq_some a _ ha, ← arrayIndex_eq_some b _ hb, e]⟩

instance entryLe_total : IsTotal (String × JsVal) entryLe :=
  ⟨fun x y => keyOrderLe_total.total x.1 y.1⟩

instance entryLe_trans : IsTrans (String × JsVal) entryLe :=
  ⟨fun x y z => keyOrderLe_trans.trans x.1 y.1 z.1⟩

theorem keyOrderLe_some_some {a b : String} {m n : Nat} (ha : arrayIndex? a = some m)
    (hb : arrayIndex? b = some n) : keyOrderLe a b ↔ m ≤ n := by
  unfold keyOrderLe; rw [ha, hb]

theorem keyOrderLe_some_none {a b : String} {m : Nat} (ha : arrayIndex? a = some m)
    (hb : arrayIndex? b = none) : keyOrderLe a b := by
  unfold keyOrderLe; rw [ha, hb]; trivial

theorem keyOrderLe_none_some {a b : String} {n : Nat} (ha : arrayIndex? a = none)
    (hb : arrayIndex? b = some n) : ¬ keyOrderLe a b := by
  unfold keyOrderLe; rw [ha, hb]; exact not_false

theorem keyOrderLe_none_none {a b : String} (ha : arrayIndex? a = none)
    (hb : arrayIndex? b = none) : keyOrderLe a b ↔ jsStrLe a b := by
  unfold keyOrderLe; rw [ha, hb]

theorem insertIndex_eq_orderedInsert (n : Nat) (e : String × JsVal) (acc : JsObject)
    (h : arrayIndex? e.1 = some n) : insertIndex n e acc = List.orderedInsert entryLe e acc := by
  induction acc with
  | nil => rfl
  | cons x xs ih =>
    unfold insertIndex
    rw [List.orderedInsert]
    cases hx : arrayIndex? x.1 with
    | none =>
      have : entryLe e x := keyOrderLe_some_none h hx
      simp only [this, if_true]
    | some m =>
      simp only
      by_cases hmn : m < n
      · have : ¬ entryLe e x := fun hh => by
          have := (keyOrderLe_some_some h hx).mp hh
          omega
        rw [if_pos hmn, if_neg this, ih]
      · have : entryLe e x := (keyOrderLe_some_some h hx).mpr (by omega)
        rw [if_neg hmn, if_pos this]

theorem append_eq_orderedInsert (e : String × JsVal) (acc : JsObject)
    (h : ∀ x ∈ acc, ¬ entryLe e x) : acc ++ [e] = List.orderedInsert entryLe e acc := by
  induction acc with
  | nil => rfl
  | cons x xs ih =>
    have hx : ¬ entryLe e x := h x (by simp)
    simp only [List.orderedInsert, hx, if_false, List.cons_append]
    rw [ih (fun y hy => h y (by simp [hy]))]

theorem objSet_eq_orderedInsert (acc : JsObject) (k : String) (v : JsVal)
    (hnew : k ∉ objKeys acc) (hproto : k ≠ "__proto__")
    (hle : ∀ a ∈ objKeys acc, jsStrLe a k) :
    objSet acc k v = List.orderedInsert entryLe (k, v) acc := by
  unfold objSet
  rw [if_neg hnew, if_neg hproto]
  cases hk : arrayIndex? k with
  | some n => exact insertIndex_eq_orderedInsert n (k, v) acc hk
  | none =>
    apply append_eq_orderedInsert
    intro x hx hle'
    have hxk : x.1 ∈ objKeys acc := List.mem_map_of_mem _ hx
    cases hxi : arrayIndex? x.1 with
    | some m => exact keyOrderLe_none_some hk hxi hle'
    | none =>
      have h1 : jsStrLe k x.1 := (keyOrderLe_none_none hk hxi).mp hle'
      have := jsStrLe_antisymm.antisymm _ _ h1 (hle x.1 hxk)
      exact hnew (this ▸ hxk)

theorem mem_objKeys_orderedInsert (e : String × JsVal) (acc : JsObject) (a : String) :
    a ∈ objKeys (List.orderedInsert entryLe e acc) ↔ a = e.1 ∨ a ∈ objKeys acc := by
  unfold objKeys
  rw [((List.perm_orderedInsert entryLe e acc).map Prod.fst).mem_iff]
  simp

theorem foldl_objSet_eq (o : JsObject) : ∀ (ks : List String) (acc : JsObject),
    ks.Nodup → ks.Pairwise jsStrLe → (∀ k ∈ ks, k ≠ "__proto__") →
    (∀ a ∈ objKeys acc, a ∉ ks) →
    (∀ a ∈ objKeys acc, ∀ k ∈ ks, jsStrLe a k) →
    ks.foldl (fun result key => objSet result key (objGet o key)) acc =
      ks.foldl (fun result key => List.orderedInsert entryLe (key, objGet o key) result) acc := by
  intro ks
  induction ks with
  | nil => intros; rfl
  | cons k ks ih =>
    intro acc hnd hsorted hproto hnew hle
    rw [List.nodup_cons] at hnd
    rw [List.pairwise_cons] at hsorted
    simp only [List.foldl_cons]
    have hstep : objSet acc k (objGet o k) = List.orderedInsert entryLe (k, objGet o k) acc :=
      objSet_eq_orderedInsert acc k _ (fun h => hnew k h (by simp)) (hproto k (by simp))
        (fun a ha => hle a ha k (by simp))
    rw [hstep]
    apply ih _ hnd.2 hsorted.2 (fun k2 hk2 => hproto k2 (by simp [hk2]))
    · intro a ha
      rcases (mem_objKeys_orderedInsert _ _ _).mp ha with h | h
      · simp only at h; rw [h]; exact hnd.1
      · exact fun hh => hnew a h (by simp [hh])
    · intro a ha k' hk'
      rcases (mem_objKeys_orderedInsert _ _ _).mp ha with h | h
      · simp only at h; rw [h]; exact hsorted.1 k' hk'
      · exact hle a h k' (by simp [hk'])

theorem foldl_orderedInsert_sorted_perm (o : JsObject) : ∀ (ks : List String) (acc : JsObject),
    acc.Sorted entryLe →
    (ks.foldl (fun result key => List.orderedInsert entryLe (key, objGet o key) result)
        acc).Sorted entryLe ∧
    (ks.foldl (fun result key => List.orderedInsert entryLe (key, objGet o key) result)
        acc).Perm (acc ++ ks.map (fun key => (key, objGet o key))) := by
  intro ks
  induction ks with
  | nil => intro acc h; simp [h]
  | cons k ks ih =>
    intro acc h
    simp only [List.foldl_cons, List.map_cons]
    obtain ⟨h1, h2⟩ := ih _ (h.orderedInsert (k, objGet o k) acc)
    refine ⟨h1, h2.trans ?_⟩
    have := List.perm_orderedInsert entryLe (k, objGet o k) acc
    refine (this.append_right _).trans ?_
    simp only [List.cons_append]
    exact List.perm_middle.symm

theorem objGet_of_mem (o : JsObject) (hnd : (objKeys o).Nodup) (x : String × JsVal)
    (hx : x ∈ o) : objGet o x.1 = x.2 := by
  induction o with
  | nil => simp at hx
  | cons y ys ih =>
    simp only [objKeys, List.map_cons, List.nodup_cons] at hnd
    unfold objGet
    rcases List.mem_cons.mp hx with rfl | h
    · simp
    · have hne : y.1 ≠ x.1 := fun e => hnd.1 (e ▸ List.mem_map_of_mem Prod.fst h)
      simp only [List.find?_cons, hne, decide_False]
      exact ih hnd.2 h

/-- Closed form of `normalizeResponseJson`. -/
theorem normalizeResponseJson_eq (o : JsObject) (hnd : (objKeys o).Nodup)
    (hproto : "__proto__" ∉ objKeys o) :
    normalizeResponseJson o =
      ((objKeys o).insertionSort keyOrderLe).map (fun key => (key, objGet o key)) := by
  unfold normalizeResponseJson
  have hperm : (jsSort (objKeys o)).Perm (objKeys o) := List.perm_insertionSort _ _
  have hsorted : (jsSort (objKeys o)).Sorted jsStrLe := List.sorted_insertionSort _ _
  rw [foldl_objSet_eq o _ [] (hperm.nodup_iff.mpr hnd) hsorted
    (fun k hk e => hproto (e ▸ hperm.mem_iff.mp hk)) (by simp [objKeys])
    (by simp [objKeys])]
  obtain ⟨h1, h2⟩ := foldl_orderedInsert_sorted_perm o (jsSort (objKeys o)) [] List.sorted_nil
  generalize (jsSort (objKeys o)).foldl
    (fun result key => List.orderedInsert entryLe (key, objGet o key) result) [] = res at h1 h2
  simp only [List.nil_append] at h2
  have hkeys : res.map Prod.fst = (objKeys o).insertionSort keyOrderLe := by
    apply List.eq_of_perm_of_sorted (r := keyOrderLe)
    · refine (h2.map Prod.fst).trans ?_
      simp only [List.map_map]
      have : (Prod.fst ∘ fun key => (key, objGet o key)) = id := rfl
      rw [this, List.map_id]
      exact hperm.trans (List.perm_insertionSort _ _).symm
    · exact List.pairwise_map.mpr h1
    · exact List.sorted_insertionSort _ _
  rw [← hkeys, List.map_map]
  have : ∀ x ∈ res, ((fun key => (key, objGet o key)) ∘ Prod.fst) x = x := by
    intro x hx
    obtain ⟨k, _, rfl⟩ := List.mem_map.mp (h2.mem_iff.mp hx)
    rfl
  conv_lhs => rw [← List.map_id res]
  exact List.map_congr_left (fun x hx => (this x hx).symm)
/-- The normalized object holds the same properties. -/
theorem normalizeResponseJson_perm (o : JsObject) (hnd : (objKeys o).Nodup)
    (hproto : "__proto__" ∉ objKeys o) : (normalizeResponseJson o).Perm o := by
  rw [normalizeResponseJson_eq o hnd hproto]
  refine ((List.perm_insertionSort keyOrderLe (objKeys o)).map _).trans ?_
  unfold objKeys
  rw [List.map_map]
  conv_rhs => rw [← List.map_id o]
  rw [List.map_congr_left]
  intro x hx
  show (x.1, objGet o x.1) = x
  rw [objGet_of_mem o hnd x hx]

theorem objGet_perm (o o2 : JsObject) (hnd : (objKeys o).Nodup) (hp : o2.Perm o)
    (k : String) (hk : k ∈ objKeys o) : objGet o2 k = objGet o k := by
  obtain ⟨x, hx, rfl⟩ := List.mem_map.mp hk
  have hnd2 : (objKeys o2).Nodup := ((hp.map Prod.fst).nodup_iff).mpr hnd
  rw [objGet_of_mem o hnd x hx, objGet_of_mem o2 hnd2 x (hp.mem_iff.mpr hx)]

/-- C5, counterexample. The object parsed from `{ "10": 1, "9": 2 }` enumerates its keys as
`9, 10`; `normalizeResponseJson` returns an object with the keys in the order `9, 10`, which
is not ascending in the lexicographic order (`"10"` comes before `"9"`). The object parsed
from `{ "__proto__": 1, "a": 2 }` loses its first entry: the assignment to `__proto__`
creates no property. -/
theorem normalizeResponseJson_index_keys_first :
    (objKeys [("9", JsVal.num 2), ("10", JsVal.num 1)]).Nodup ∧
    objKeys (normalizeResponseJson [("9", JsVal.num 2), ("10", JsVal.num 1)]) = ["9", "10"] ∧
    ¬ (objKeys (normalizeResponseJson [("9", JsVal.num 2), ("10", JsVal.num 1)])).Sorted
        jsStrLe ∧
    (objKeys [("__proto__", JsVal.num 1), ("a", JsVal.num 2)]).Nodup ∧
    normalizeResponseJson [("__proto__", JsVal.num 1), ("a", JsVal.num 2)] =
      [("a", JsVal.num 2)] := by
  refine ⟨by decide, by decide, ?_, by decide, by rfl⟩
  have h : objKeys (normalizeResponseJson [("9", JsVal.num 2), ("10", JsVal.num 1)])
      = ["9", "10"] := by decide
  rw [h]
  decide

/-- C5, amended. For an object with distinct keys, none of them `__proto__`,
`normalizeResponseJson` returns an object with exactly the same key/value pairs, every value
unchanged, whose keys are in the order `keyOrderLe`: array-index keys first in ascending
numeric order, then the other keys in ascending lexicographic order; when no key is an array
index the keys are in ascending lexicographic order. Two such objects with the same pairs in
different orders normalize to the same object, so every path resolves identically against
them. -/
theorem normalizeResponseJson_canonical (o : JsObject) (hnd : (objKeys o).Nodup)
    (hproto : "__proto__" ∉ objKeys o) :
    (normalizeResponseJson o).Perm o ∧
    (objKeys (normalizeResponseJson o)).Sorted keyOrderLe ∧
    ((∀ k ∈ objKeys o, arrayIndex? k = none) →
      (objKeys (normalizeResponseJson o)).Sorted jsStrLe) ∧
    (∀ o2 : JsObject, o2.Perm o →
      normalizeResponseJson o2 = normalizeResponseJson o ∧
      ∀ (resolve : JsVal → String → Except Err JsVal) (path : String),
        resolve (JsVal.obj (normalizeResponseJson o2)) path =
          resolve (JsVal.obj (normalizeResponseJson o)) path) := by
  have hperm : (normalizeResponseJson o).Perm o := normalizeResponseJson_perm o hnd hproto
  have hsorted : (objKeys (normalizeResponseJson o)).Sorted keyOrderLe := by
    rw [normalizeResponseJson_eq o hnd hproto]
    unfold objKeys
    rw [List.map_map]
    have : (Prod.fst ∘ fun key => (key, objGet o key)) = id := rfl
    rw [this, List.map_id]
    exact List.sorted_insertionSort _ _
  have heq : ∀ o2 : JsObject, o2.Perm o → normalizeResponseJson o2 = normalizeResponseJson o := by
    intro o2 hp
    have hnd2 : (objKeys o2).Nodup := ((hp.map Prod.fst).nodup_iff).mpr hnd
    have hproto2 : "__proto__" ∉ objKeys o2 :=
      fun h => hproto ((hp.map Prod.fst).mem_iff.mp h)
    rw [normalizeResponseJson_eq o hnd hproto, normalizeResponseJson_eq o2 hnd2 hproto2]
    have hk : (objKeys o2).insertionSort keyOrderLe = (objKeys o).insertionSort keyOrderLe := by
      apply List.eq_of_perm_of_sorted (r := keyOrderLe)
      · exact (List.perm_insertionSort _ _).trans
          ((hp.map Prod.fst).trans (List.perm_insertionSort _ _).symm)
      · exact List.sorted_insertionSort _ _
      · exact List.sorted_insertionSort _ _
    rw [hk]
    apply List.map_congr_left
    intro k hk'
    have : k ∈ objKeys o := (List.perm_insertionSort keyOrderLe (objKeys o)).mem_iff.mp hk'
    rw [objGet_perm o o2 hnd hp k this]
  refine ⟨hperm, hsorted, ?_, ?_⟩
  · intro hnone
    have hmem : ∀ k ∈ objKeys (normalizeResponseJson o), arrayIndex? k = none := by
      intro k hk
      exact hnone k ((hperm.map Prod.fst).mem_iff.mp hk)
    refine List.Pairwise.imp_of_mem ?_ hsorted
    intro a b ha hb hab
    exact (keyOrderLe_none_none (hmem a ha) (hmem b hb)).mp hab
  · intro o2 hp
    refine ⟨heq o2 hp, ?_⟩
    intro resolve path
    rw [heq o2 hp]

theorem normalizeResponseJson_canonical_witness :
    normalizeResponseJson [("a", JsVal.num 2), ("b", JsVal.num 1)] =
      normalizeResponseJson [("b", JsVal.num 1), ("a", JsVal.num 2)] :=
  ((normalizeResponseJson_canonical [("b", JsVal.num 1), ("a", JsVal.num 2)]
    (by decide) (by decide)).2.2.2 [("a", JsVal.num 2), ("b", JsVal.num 1)]
    (List.Perm.swap _ _ _)).1

theorem objGet_of_not_mem (o : JsObject) (k : String) (hk : k ∉ objKeys o) :
    objGet o k = JsVal.undefined := by
  unfold objGet
  have : o.find? (fun e => decide (e.1 = k)) = none := by
    rw [List.find?_eq_none]
    intro x hx
    simp only [decide_eq_true_eq]
    exact fun e => hk (e ▸ List.mem_map_of_mem Prod.fst hx)
  rw [this]

/-- A path that starts with a member step resolves identically in a document and in its
key-sorted copy. -/
theorem stepsValue_member_sorted (o : JsObject) (hnd : (objKeys o).Nodup)
    (hproto : "__proto__" ∉ objKeys o) (name : String) (rest : List PathStep) :
    stepsValue (JsVal.obj (normalizeResponseJson o)) (PathStep.member name :: rest) =
      stepsValue (JsVal.obj o) (PathStep.member name :: rest) := by
  have hperm : (normalizeResponseJson o).Perm o := normalizeResponseJson_perm o hnd hproto
  have hget : objGet (normalizeResponseJson o) name = objGet o name := by
    by_cases hk : name ∈ objKeys o
    · exact objGet_perm o _ hnd hperm name hk
    · rw [objGet_of_not_mem o name hk, objGet_of_not_mem _ name]
      exact fun h => hk ((hperm.map Prod.fst).mem_iff.mp h)
  simp only [stepsValue, stepValue, hget]

/-! ## The loop of `heartbeat` -/

theorem heartbeatLoop_skip (env : Env) (i : Nat) (sd : StreamState × BigNumber)
    (rest : List (StreamState × BigNumber)) (h : ¬ fires env i sd) :
    heartbeatLoop env i (sd :: rest) = heartbeatLoop env (i + 1) rest := by
  obtain ⟨s, d⟩ := sd
  unfold fires at h
  simp only [not_or, Bool.not_eq_true] at h
  rw [heartbeatLoop]
  simp [h.1, h.2]

theorem heartbeatLoop_fire (env : Env) (i : Nat) (sd : StreamState × BigNumber)
    (rest : List (StreamState × BigNumber)) (h : fires env i sd) :
    heartbeatLoop env i (sd :: rest) =
      match pullTriggerStream env i with
      | Except.error e =>
        (triggerLog i (deviated sd.2 sd.1.lastPrice sd.1.deviation)
          (decide (env.now i > sd.1.lastUpdated + sd.1.windowSize)) ++ [Event.pullTrigger i],
          some e)
      | Except.ok _ =>
        (triggerLog i (deviated sd.2 sd.1.lastPrice sd.1.deviation)
          (decide (env.now i > sd.1.lastUpdated + sd.1.windowSize)) ++
            Event.pullTrigger i :: (heartbeatLoop env (i + 1) rest).1,
          (heartbeatLoop env (i + 1) rest).2) := by
  obtain ⟨s, d⟩ := sd
  unfold fires at h
  rw [heartbeatLoop]
  have : (!deviated d s.lastPrice s.deviation &&
      !decide (env.now i > s.lastUpdated + s.windowSize)) = false := by
    rcases h with h | h
    · simp only at h; simp [h]
    · simp only at h; simp [h]
  simp only [this]
  rfl
theorem triggerLog_about (i : Nat) (a b : Bool) : ∀ ev ∈ triggerLog i a b, Event.about i ev := by
  intro ev h
  unfold triggerLog at h
  unfold Event.about
  split_ifs at h <;> simp at h <;> simp [h]

theorem heartbeatLoop_about (env : Env) : ∀ (l : List (StreamState × BigNumber)) (i : Nat),
    ∀ ev ∈ (heartbeatLoop env i l).1, ∃ j, i ≤ j ∧ j < i + l.length ∧ Event.about j ev := by
  intro l
  induction l with
  | nil => intro i ev h; simp [heartbeatLoop] at h
  | cons sd rest ih =>
    intro i ev h
    have lift : (∃ j, i + 1 ≤ j ∧ j < i + 1 + rest.length ∧ Event.about j ev) →
        ∃ j, i ≤ j ∧ j < i + (sd :: rest).length ∧ Event.about j ev := by
      rintro ⟨j, h1, h2, h3⟩
      exact ⟨j, by omega, by simp only [List.length_cons]; omega, h3⟩
    have here : Event.about i ev →
        ∃ j, i ≤ j ∧ j < i + (sd :: rest).length ∧ Event.about j ev := by
      intro h3
      exact ⟨i, le_refl _, by simp only [List.length_cons]; omega, h3⟩
    by_cases hf : fires env i sd
    · rw [heartbeatLoop_fire env i sd rest hf] at h
      cases hp : pullTriggerStream env i with
      | error e =>
        rw [hp] at h
        simp only [List.mem_append, List.mem_singleton] at h
        rcases h with h | h
        · exact here (triggerLog_about _ _ _ ev h)
        · exact here (Or.inr (Or.inr h))
      | ok u =>
        rw [hp] at h
        simp only [List.mem_append, List.mem_cons] at h
        rcases h with h | h | h
        · exact here (triggerLog_about _ _ _ ev h)
        · exact here (Or.inr (Or.inr h))
        · exact lift (ih (i + 1) ev h)
    · rw [heartbeatLoop_skip env i sd rest hf] at h
      exact lift (ih (i + 1) ev h)

theorem heartbeatLoop_split (env : Env) : ∀ (k : Nat) (l : List (StreamState × BigNumber))
    (i : Nat), (∀ j < k, pullTriggerStream env (i + j) = Except.ok ()) →
    heartbeatLoop env i l =
      ((heartbeatLoop env i (l.take k)).1 ++ (heartbeatLoop env (i + k) (l.drop k)).1,
        (heartbeatLoop env (i + k) (l.drop k)).2) := by
  intro k
  induction k with
  | zero => intro l i _; simp [heartbeatLoop]
  | succ k ih =>
    intro l i hok
    cases l with
    | nil => simp [heartbeatLoop]
    | cons sd rest =>
      have hok' : ∀ j < k, pullTriggerStream env (i + 1 + j) = Except.ok () := by
        intro j hj
        have := hok (j + 1) (by omega)
        rwa [show i + (j + 1) = i + 1 + j by omega] at this
      have ih' := ih rest (i + 1) hok'
      have e : i + 1 + k = i + (k + 1) := by omega
      rw [e] at ih'
      simp only [List.take_succ_cons, List.drop_succ_cons]
      by_cases hf : fires env i sd
      · have h0 : pullTriggerStream env i = Except.ok () := hok 0 (by omega)
        rw [heartbeatLoop_fire env i sd rest hf, heartbeatLoop_fire env i sd _ hf, h0]
        simp only
        rw [ih']
        simp
      · rw [heartbeatLoop_skip env i sd rest hf, heartbeatLoop_skip env i sd _ hf]
        exact ih'
theorem Event.about_unique {j1 j2 : Nat} {ev : Event} (h1 : Event.about j1 ev)
    (h2 : Event.about j2 ev) : j1 = j2 := by
  unfold Event.about at h1 h2
  rcases h1 with rfl | rfl | rfl <;> rcases h2 with h | h | h <;> cases h <;> rfl

theorem heartbeatLoop_at_mem (env : Env) (l : List (StreamState × BigNumber)) (i k : Nat)
    (sd : StreamState × BigNumber) (hk : l[k]? = some sd)
    (hok : ∀ j < k, pullTriggerStream env (i + j) = Except.ok ())
    (ev : Event) (hev : Event.about (i + k) ev) :
    ev ∈ (heartbeatLoop env i l).1 ↔
      fires env (i + k) sd ∧
        ev ∈ triggerLog (i + k) (deviated sd.2 sd.1.lastPrice sd.1.deviation)
          (decide (env.now (i + k) > sd.1.lastUpdated + sd.1.windowSize)) ++
            [Event.pullTrigger (i + k)] := by
  rw [heartbeatLoop_split env k l i hok]
  simp only [List.mem_append]
  have hpre : ev ∉ (heartbeatLoop env i (l.take k)).1 := by
    intro h
    obtain ⟨j, _, h2, h3⟩ := heartbeatLoop_about env _ _ ev h
    have := Event.about_unique hev h3
    simp only [List.length_take] at h2
    omega
  have hdrop : l.drop k = sd :: l.drop (k + 1) := by
    have hlt : k < l.length := by
      by_contra hge
      rw [List.getElem?_eq_none (by omega)] at hk
      cases hk
    rw [List.drop_eq_getElem_cons hlt]
    congr 1
    rw [List.getElem?_eq_getElem hlt] at hk
    exact Option.some.inj hk
  rw [hdrop]
  have hrest : ev ∉ (heartbeatLoop env (i + k + 1) (l.drop (k + 1))).1 := by
    intro h
    obtain ⟨j, h1, _, h3⟩ := heartbeatLoop_about env _ _ ev h
    have := Event.about_unique hev h3
    omega
  by_cases hf : fires env (i + k) sd
  · rw [heartbeatLoop_fire env _ sd _ hf]
    cases hp : pullTriggerStream env (i + k) with
    | error e =>
      simp only [List.mem_append, List.mem_singleton, hf, true_and]
      tauto
    | ok u =>
      simp only [List.mem_append, List.mem_cons, List.mem_singleton, List.not_mem_nil,
        or_false, hf, true_and]
      constructor
      · rintro (h | h | h | h)
        · exact absurd h hpre
        · exact Or.inl h
        · exact Or.inr h
        · exact absurd h hrest
      · rintro (h | h)
        · exact Or.inr (Or.inl h)
        · exact Or.inr (Or.inr (Or.inl h))
  · rw [heartbeatLoop_skip env _ sd _ hf]
    simp only [hf, false_and, iff_false, not_or]
    exact ⟨hpre, hrest⟩

theorem heartbeatLoop_at (env : Env) (l : List (StreamState × BigNumber)) (i k : Nat)
    (sd : StreamState × BigNumber) (hk : l[k]? = some sd)
    (hok : ∀ j < k, pullTriggerStream env (i + j) = Except.ok ()) :
    (Event.pullTrigger (i + k) ∈ (heartbeatLoop env i l).1 ↔ fires env (i + k) sd) ∧
    (Event.deviationTrigger (i + k) ∈ (heartbeatLoop env i l).1 ↔
      deviated sd.2 sd.1.lastPrice sd.1.deviation = true) ∧
    (Event.timerTrigger (i + k) ∈ (heartbeatLoop env i l).1 ↔
      env.now (i + k) > sd.1.lastUpdated + sd.1.windowSize ∧
        deviated sd.2 sd.1.lastPrice sd.1.deviation = false) := by
  refine ⟨?_, ?_, ?_⟩
  · rw [heartbeatLoop_at_mem env l i k sd hk hok _ (Or.inr (Or.inr rfl))]
    simp
  · rw [heartbeatLoop_at_mem env l i k sd hk hok _ (Or.inl rfl)]
    unfold fires triggerLog
    cases hd : deviated sd.2 sd.1.lastPrice sd.1.deviation
    · by_cases he : env.now (i + k) > sd.1.lastUpdated + sd.1.windowSize <;> simp [he]
    · simp
  · rw [heartbeatLoop_at_mem env l i k sd hk hok _ (Or.inr (Or.inl rfl))]
    unfold fires triggerLog
    cases hd : deviated sd.2 sd.1.lastPrice sd.1.deviation
    · by_cases he : env.now (i + k) > sd.1.lastUpdated + sd.1.windowSize <;> simp [he]
    · simp
theorem heartbeat_of_init (env : Env) (states : List StreamState) (hcfg : env.streams ≠ [])
    (h : init env = (states, none)) :
    heartbeat env [] = heartbeatQuery env states [Event.init] := by
  unfold heartbeat
  have : ¬ env.streams.length = 0 := fun e => hcfg (List.length_eq_zero.mp e)
  simp only [this, if_false, List.length_nil, if_true, h]

theorem heartbeat_of_sync (env : Env) (states0 states : List StreamState)
    (hcfg : env.streams ≠ []) (hne : states0 ≠ []) (h : sync env states0 = (states, none)) :
    heartbeat env states0 = heartbeatQuery env states [Event.sync] := by
  unfold heartbeat
  have h1 : ¬ env.streams.length = 0 := fun e => hcfg (List.length_eq_zero.mp e)
  have h2 : ¬ states0.length = 0 := fun e => hne (List.length_eq_zero.mp e)
  simp only [h1, h2, if_false, h]

theorem heartbeat_of_refreshed (env : Env) (states0 states : List StreamState)
    (hcfg : env.streams ≠ []) (h : Refreshed env states0 states) :
    ∃ pre, (pre = [Event.init] ∨ pre = [Event.sync]) ∧
      heartbeat env states0 = heartbeatQuery env states pre := by
  rcases h with ⟨rfl, h⟩ | ⟨hne, h⟩
  · exact ⟨_, Or.inl rfl, heartbeat_of_init env states hcfg h⟩
  · exact ⟨_, Or.inr rfl, heartbeat_of_sync env states0 states hcfg hne h⟩

theorem heartbeatQuery_events (env : Env) (states : List StreamState) (pre : List Event)
    (data : List BigNumber) (hq : queryCoingeckoStreamsData env states = Except.ok data) :
    (heartbeatQuery env states pre).events =
      pre ++ Event.query :: (heartbeatLoop env 0 (states.zip data)).1 ++
        (if (heartbeatLoop env 0 (states.zip data)).2 = none then [Event.schedule] else []) ∧
    (heartbeatQuery env states pre).outcome =
      (match (heartbeatLoop env 0 (states.zip data)).2 with
        | none => Outcome.returned
        | some e => Outcome.threw e) ∧
    (heartbeatQuery env states pre).states = states := by
  unfold heartbeatQuery
  rw [hq]
  simp only
  rcases hl : heartbeatLoop env 0 (states.zip data) with ⟨evs, _ | e⟩ <;> simp

theorem about_mem_cycle (env : Env) (states : List StreamState) (pre : List Event)
    (data : List BigNumber) (hq : queryCoingeckoStreamsData env states = Except.ok data)
    (hpre : pre = [Event.init] ∨ pre = [Event.sync]) (j : Nat) (ev : Event)
    (hev : Event.about j ev) :
    ev ∈ (heartbeatQuery env states pre).events ↔
      ev ∈ (heartbeatLoop env 0 (states.zip data)).1 := by
  rw [(heartbeatQuery_events env states pre data hq).1]
  unfold Event.about at hev
  rcases hpre with rfl | rfl <;> rcases hev with rfl | rfl | rfl <;>
    by_cases h : (heartbeatLoop env 0 (states.zip data)).2 = none <;> simp [h]

theorem queryLoop_forall₂ (env : Env) (doc : JsVal) : ∀ (states : List StreamState)
    (data : List BigNumber), queryLoop env doc states = Except.ok data →
    List.Forall₂ (fun s d => ∃ v, env.jpValue doc (normalizeSelector s.selector) = Except.ok v ∧
      d = (BN env v).times (BigNumber.pow10 s.decimal)) states data := by
  intro states
  induction states with
  | nil =>
    intro data h
    simp only [queryLoop, Except.ok.injEq] at h
    rw [← h]; exact List.Forall₂.nil
  | cons s rest ih =>
    intro data h
    rw [queryLoop] at h
    cases hv : env.jpValue doc (normalizeSelector s.selector) with
    | error e => rw [hv] at h; cases h
    | ok v =>
      rw [hv] at h
      simp only at h
      cases hr : queryLoop env doc rest with
      | error e => rw [hr] at h; cases h
      | ok ret =>
        rw [hr] at h
        simp only [Except.ok.injEq] at h
        rw [← h]
        exact List.Forall₂.cons ⟨v, hv, rfl⟩ (ih ret hr)

theorem queryLoop_ok (env : Env) (doc : JsVal) : ∀ (states : List StreamState),
    (∀ s ∈ states, ∃ v, env.jpValue doc (normalizeSelector s.selector) = Except.ok v) →
    ∃ data, queryLoop env doc states = Except.ok data := by
  intro states
  induction states with
  | nil => intro _; exact ⟨[], rfl⟩
  | cons s rest ih =>
    intro h
    obtain ⟨v, hv⟩ := h s (by simp)
    obtain ⟨ret, hr⟩ := ih (fun t ht => h t (by simp [ht]))
    refine ⟨(BN env v).times (BigNumber.pow10 s.decimal) :: ret, ?_⟩
    rw [queryLoop, hv]
    simp only
    rw [hr]

theorem zip_getElem? (states : List StreamState) (data : List BigNumber) (i : Nat)
    (s : StreamState) (d : BigNumber) (hs : states[i]? = some s) (hd : data[i]? = some d) :
    (states.zip data)[i]? = some (s, d) := by
  rw [List.getElem?_zip_eq_some]
  exact ⟨hs, hd⟩
/-- C2, counterexample. An expired stream is not triggered when the cycle does not get to
it. First cycle: the fetch fails, the heartbeat ends with that error after the query and
stream 0, expired, gets no trigger. Second cycle: the broadcast for stream 0 fails, the
heartbeat ends there and stream 1, expired, gets no trigger. -/
theorem heartbeat_trigger_not_reached :
    ((demoEnv demoDoc 5000 (fun _ => false)).now 0 > (1000 : Int) + 3600 ∧
      heartbeat { demoEnv demoDoc 5000 (fun _ => false) with
          fetchJson := Except.error "network error" } demoStates =
        ⟨demoStates, [Event.sync, Event.query], Outcome.threw "network error"⟩ ∧
      Event.pullTrigger 0 ∉
        (heartbeat { demoEnv demoDoc 5000 (fun _ => false) with
          fetchJson := Except.error "network error" } demoStates).events) ∧
    ((demoEnv demoDoc 5000 (fun i => decide (i = 0))).now 1 > (1000 : Int) + 3600 ∧
      (heartbeat (demoEnv demoDoc 5000 (fun i => decide (i = 0))) []).events =
        [Event.init, Event.query, Event.timerTrigger 0, Event.pullTrigger 0] ∧
      Event.pullTrigger 1 ∉
        (heartbeat (demoEnv demoDoc 5000 (fun i => decide (i = 0))) []).events) := by
  refine ⟨⟨by decide, by decide, by decide⟩, ⟨by decide, by decide, by decide⟩⟩

/-- C2, amended. In a heartbeat with at least one configured stream whose `init` or `sync`
and price query returned normally, for every stream `i` that the loop reaches (no submission
for an earlier stream threw): `pullTriggerStream` is called for stream `i` exactly when
`deviated` holds or `now > lastUpdated + windowSize`; the Deviation line is logged exactly
when `deviated` holds (also when the stream is expired too); the Timer line is logged exactly
when the stream is expired and not deviated. -/
theorem heartbeat_trigger_iff (env : Env) (states0 states : List StreamState)
    (data : List BigNumber) (hcfg : env.streams ≠ []) (href : Refreshed env states0 states)
    (hq : queryCoingeckoStreamsData env states = Except.ok data)
    (i : Nat) (s : StreamState) (d : BigNumber) (hs : states[i]? = some s)
    (hd : data[i]? = some d) (hok : ∀ j < i, pullTriggerStream env j = Except.ok ()) :
    (Event.pullTrigger i ∈ (heartbeat env states0).events ↔
      (deviated d s.lastPrice s.deviation = true ∨ env.now i > s.lastUpdated + s.windowSize)) ∧
    (Event.deviationTrigger i ∈ (heartbeat env states0).events ↔
      deviated d s.lastPrice s.deviation = true) ∧
    (Event.timerTrigger i ∈ (heartbeat env states0).events ↔
      (env.now i > s.lastUpdated + s.windowSize ∧
        deviated d s.lastPrice s.deviation = false)) := by
  obtain ⟨pre, hpre, heq⟩ := heartbeat_of_refreshed env states0 states hcfg href
  have hz := zip_getElem? states data i s d hs hd
  have hok0 : ∀ j < i, pullTriggerStream env (0 + j) = Except.ok () := by
    intro j hj; rw [Nat.zero_add]; exact hok j hj
  have h := heartbeatLoop_at env (states.zip data) 0 i (s, d) hz hok0
  rw [Nat.zero_add] at h
  rw [heq, about_mem_cycle env states pre data hq hpre i _ (Or.inr (Or.inr rfl)),
    about_mem_cycle env states pre data hq hpre i _ (Or.inl rfl),
    about_mem_cycle env states pre data hq hpre i _ (Or.inr (Or.inl rfl))]
  exact h

theorem heartbeat_trigger_iff_witness :
    Event.timerTrigger 0 ∈ (heartbeat (demoEnv demoDoc 4601 (fun _ => false)) []).events ∧
    Event.pullTrigger 0 ∈ (heartbeat (demoEnv demoDoc 4601 (fun _ => false)) []).events ∧
    Event.deviationTrigger 0 ∉ (heartbeat (demoEnv demoDoc 4601 (fun _ => false)) []).events := by
  have h := heartbeat_trigger_iff (demoEnv demoDoc 4601 (fun _ => false)) [] demoStates
    [BigNumber.fin (1 * 10 ^ 2), BigNumber.fin (1 * 10 ^ 2)] (by decide)
    (Or.inl ⟨rfl, by decide⟩) (by rfl) 0
    { stream := "0xaaaa", source := "coingecko", selector := "$.bitcoin.usd",
      windowSize := 3600, deviation := 0, decimal := 2, lastUpdated := 1000,
      lastPrice := BigNumber.fin 100 }
    (BigNumber.fin (1 * 10 ^ 2)) rfl rfl (by intro j hj; omega)
  have hdev : deviated (BigNumber.fin (1 * 10 ^ 2)) (BigNumber.fin 100) 0 = false := by
    simp [deviated]
  have hexp : (demoEnv demoDoc 4601 (fun _ => false)).now 0 > (1000 : Int) + 3600 := by
    decide
  refine ⟨h.2.2.mpr ⟨hexp, hdev⟩, h.1.mpr (Or.inr hexp), ?_⟩
  intro hmem
  have := h.2.1.mp hmem
  rw [hdev] at this
  cases this

/-! ## Price query, missing fields and failed submissions -/

/-- What `queryCoingeckoStreamsData` returns: one entry per state, in order, each the value
found by `jp.value` in the document as fetched, times `10 ^ decimal`. -/
theorem queryCoingeckoStreamsData_forall₂ (env : Env) (doc : JsVal) (states : List StreamState)
    (data : List BigNumber) (hfetch : env.fetchJson = Except.ok doc)
    (hq : queryCoingeckoStreamsData env states = Except.ok data) :
    List.Forall₂ (fun s d => ∃ v, env.jpValue doc (normalizeSelector s.selector) = Except.ok v ∧
      d = (BN env v).times (BigNumber.pow10 s.decimal)) states data := by
  unfold queryCoingeckoStreamsData at hq
  rw [hfetch] at hq
  exact queryLoop_forall₂ env doc states data hq

theorem forall₂_getElem? {α β : Type} (R : α → β → Prop) : ∀ (l1 : List α) (l2 : List β),
    List.Forall₂ R l1 l2 → ∀ (i : Nat) (a : α), l1[i]? = some a →
    ∃ b, l2[i]? = some b ∧ R a b := by
  intro l1 l2 h
  induction h with
  | nil => intro i a ha; simp at ha
  | cons hab _ ih =>
    intro i a ha
    cases i with
    | zero =>
      simp only [List.getElem?_cons_zero, Option.some.injEq] at ha
      subst ha
      exact ⟨_, by simp, hab⟩
    | succ i =>
      simp only [List.getElem?_cons_succ] at ha ⊢
      exact ih i a ha

theorem deviated_nan (p0 : BigNumber) (t : Int) : deviated BigNumber.nan p0 t = false := by
  unfold deviated
  split_ifs
  · rfl
  · simp [BigNumber.gt, BigNumber.lt]

theorem heartbeatLoop_all_ok (env : Env) (hok : ∀ j, pullTriggerStream env j = Except.ok ()) :
    ∀ (l : List (StreamState × BigNumber)) (i : Nat), (heartbeatLoop env i l).2 = none := by
  intro l
  induction l with
  | nil => intro i; rfl
  | cons sd rest ih =>
    intro i
    by_cases hf : fires env i sd
    · rw [heartbeatLoop_fire env i sd rest hf, hok i]
      exact ih (i + 1)
    · rw [heartbeatLoop_skip env i sd rest hf]
      exact ih (i + 1)

/-- C6, failing input. For the document `{ "b": 1, "a": 2 }` and one stream with selector
`$.*` and decimal 0, `queryCoingeckoStreamsData` returns `[1]`: the lookup runs on the
document as fetched. The same lookup on `normalizeResponseJson` of the document finds 2, so
the element described by the claim is 2. -/
theorem queryCoingeckoStreamsData_reads_unsorted :
    queryCoingeckoStreamsData (demoEnv (JsVal.obj unsortedMembers) 0 (fun _ => false))
        [wildcardState] = Except.ok [BigNumber.fin 1] ∧
    jpValueModel (JsVal.obj (normalizeResponseJson unsortedMembers))
        (normalizeSelector wildcardState.selector) = Except.ok (JsVal.num 2) ∧
    (BN (demoEnv (JsVal.obj unsortedMembers) 0 (fun _ => false)) (JsVal.num 2)).times
        (BigNumber.pow10 wildcardState.decimal) = BigNumber.fin 2 := by
  refine ⟨?_, by rfl, ?_⟩
  · have h : queryCoingeckoStreamsData (demoEnv (JsVal.obj unsortedMembers) 0 (fun _ => false))
        [wildcardState] = Except.ok [BigNumber.fin (1 * 10 ^ 0)] := by rfl
    rw [h]; norm_num
  · have h : (BN (demoEnv (JsVal.obj unsortedMembers) 0 (fun _ => false)) (JsVal.num 2)).times
        (BigNumber.pow10 wildcardState.decimal) = BigNumber.fin (2 * 10 ^ 0) := by rfl
    rw [h]; norm_num

/-- C7, counterexample. The document has no `huobi-token` entry, so the normalized selector
of the second stream addresses no field. `jp.value` returns `undefined`, the price list is
`[100, NaN]` without any error, and the heartbeat runs to its end: both expired streams are
triggered and the next cycle is scheduled. -/
theorem missing_field_cycle_continues :
    jpValueModel partialDoc (normalizeSelector "$.huobi-token.usd") =
      Except.ok JsVal.undefined ∧
    queryCoingeckoStreamsData (demoEnv partialDoc 4601 (fun _ => false)) demoStates =
      Except.ok [BigNumber.fin 100, BigNumber.nan] ∧
    heartbeat (demoEnv partialDoc 4601 (fun _ => false)) demoStates =
      ⟨demoStates,
        [Event.sync, Event.query, Event.timerTrigger 0, Event.pullTrigger 0,
          Event.timerTrigger 1, Event.pullTrigger 1, Event.schedule],
        Outcome.returned⟩ := by
  refine ⟨by rfl, ?_, by decide⟩
  have h : queryCoingeckoStreamsData (demoEnv partialDoc 4601 (fun _ => false)) demoStates =
      Except.ok [BigNumber.fin (1 * 10 ^ 2), BigNumber.nan] := by rfl
  rw [h]; norm_num

/-- A lookup that returns `undefined` gives a NaN price; the cycle goes on and the stream can
only be triggered by the timer. -/
theorem undefined_lookup_gives_nan (env : Env) (states0 states : List StreamState) (doc : JsVal)
    (i : Nat) (s : StreamState) (hcfg : env.streams ≠ [])
    (href : Refreshed env states0 states) (hfetch : env.fetchJson = Except.ok doc)
    (hs : states[i]? = some s)
    (hmiss : env.jpValue doc (normalizeSelector s.selector) = Except.ok JsVal.undefined)
    (hothers : ∀ t ∈ states, ∃ v, env.jpValue doc (normalizeSelector t.selector) = Except.ok v)
    (hok : ∀ j, pullTriggerStream env j = Except.ok ()) :
    ∃ data, queryCoingeckoStreamsData env states = Except.ok data ∧
      data.length = states.length ∧ data[i]? = some BigNumber.nan ∧
      (heartbeat env states0).outcome = Outcome.returned ∧
      Event.schedule ∈ (heartbeat env states0).events ∧
      Event.deviationTrigger i ∉ (heartbeat env states0).events ∧
      (Event.pullTrigger i ∈ (heartbeat env states0).events ↔
        env.now i > s.lastUpdated + s.windowSize) ∧
      (Event.timerTrigger i ∈ (heartbeat env states0).events ↔
        env.now i > s.lastUpdated + s.windowSize) := by
  obtain ⟨data, hdata⟩ := queryLoop_ok env doc states hothers
  have hq : queryCoingeckoStreamsData env states = Except.ok data := by
    unfold queryCoingeckoStreamsData; rw [hfetch]; exact hdata
  have hall := queryCoingeckoStreamsData_forall₂ env doc states data hfetch hq
  obtain ⟨d, hd, v, hv, hdv⟩ := forall₂_getElem? _ states data hall i s hs
  rw [hmiss] at hv
  have hvu : v = JsVal.undefined := (Except.ok.inj hv).symm
  have hdn : d = BigNumber.nan := by rw [hdv, hvu]; rfl
  rw [hdn] at hd
  have hC := heartbeat_of_refreshed env states0 states hcfg href
  obtain ⟨pre, hpre, heq⟩ := hC
  have hz := zip_getElem? states data i s BigNumber.nan hs hd
  have hok0 : ∀ j < i, pullTriggerStream env (0 + j) = Except.ok () := fun j _ => hok _
  have h := heartbeatLoop_at env (states.zip data) 0 i (s, BigNumber.nan) hz hok0
  rw [Nat.zero_add] at h
  simp only [fires, deviated_nan, Bool.false_eq_true, false_or, and_true] at h
  have hnone : (heartbeatLoop env 0 (states.zip data)).2 = none :=
    heartbeatLoop_all_ok env hok _ _
  have hev := heartbeatQuery_events env states pre data hq
  refine ⟨data, hq, hall.length_eq.symm, hd, ?_, ?_, ?_, ?_, ?_⟩
  · rw [heq, hev.2.1, hnone]
  · rw [heq, hev.1, hnone]; simp
  · rw [heq, about_mem_cycle env states pre data hq hpre i _ (Or.inl rfl)]
    exact fun hm => by simpa using h.2.1.mp hm
  · rw [heq, about_mem_cycle env states pre data hq hpre i _ (Or.inr (Or.inr rfl))]
    exact h.1
  · rw [heq, about_mem_cycle env states pre data hq hpre i _ (Or.inr (Or.inl rfl))]
    exact h.2.2

theorem queryLoop_error (env : Env) (doc : JsVal) : ∀ (states : List StreamState),
    (∃ s ∈ states, ∃ e, env.jpValue doc (normalizeSelector s.selector) = Except.error e) →
    ∃ e2, queryLoop env doc states = Except.error e2 := by
  intro states
  induction states with
  | nil => rintro ⟨s, hs, _⟩; simp at hs
  | cons st rest ih =>
    rintro ⟨s, hs, e, he⟩
    rw [queryLoop]
    cases hv : env.jpValue doc (normalizeSelector st.selector) with
    | error e1 => exact ⟨e1, rfl⟩
    | ok v =>
      simp only
      have hrest : ∃ s ∈ rest, ∃ e,
          env.jpValue doc (normalizeSelector s.selector) = Except.error e := by
        rcases List.mem_cons.mp hs with rfl | h
        · rw [hv] at he; cases he
        · exact ⟨s, h, e, he⟩
      obtain ⟨e2, h2⟩ := ih hrest
      rw [h2]
      exact ⟨e2, rfl⟩

/-- A lookup that throws makes the price query throw; the heartbeat ends with that error
right after the query, before any stream is examined. -/
theorem throwing_lookup_aborts (env : Env) (states0 states : List StreamState) (doc : JsVal)
    (s : StreamState) (hcfg : env.streams ≠ [])
    (href : Refreshed env states0 states) (hfetch : env.fetchJson = Except.ok doc)
    (hs : s ∈ states) (e : Err)
    (hthrow : env.jpValue doc (normalizeSelector s.selector) = Except.error e) :
    ∃ e2, queryCoingeckoStreamsData env states = Except.error e2 ∧
      (heartbeat env states0).outcome = Outcome.threw e2 ∧
      Event.schedule ∉ (heartbeat env states0).events ∧
      ∀ j ev, Event.about j ev → ev ∉ (heartbeat env states0).events := by
  obtain ⟨e2, h2⟩ := queryLoop_error env doc states ⟨s, hs, e, hthrow⟩
  have hq : queryCoingeckoStreamsData env states = Except.error e2 := by
    unfold queryCoingeckoStreamsData; rw [hfetch]; exact h2
  obtain ⟨pre, hpre, heq⟩ := heartbeat_of_refreshed env states0 states hcfg href
  have hcycle : heartbeatQuery env states pre =
      ⟨states, pre ++ [Event.query], Outcome.threw e2⟩ := by
    unfold heartbeatQuery; rw [hq]
  rw [heq, hcycle]
  refine ⟨e2, hq, rfl, ?_, ?_⟩
  · rcases hpre with rfl | rfl <;> simp
  · intro j ev hab
    rcases hpre with rfl | rfl <;> rcases hab with rfl | rfl | rfl <;> simp

/-- C7, amended. Let the normalized selector of stream `i` address no field of the fetched
document. If `jp.value` throws on it (the document is not an object, or the normalized
selector is not a path the library can parse), the price query throws and the heartbeat ends
with that error without examining or triggering any stream and without scheduling the next
cycle. If `jp.value` returns `undefined` (the path parses and matches nothing) and no lookup
of the cycle throws, the price query returns normally with one entry per stream and NaN for
stream `i`; with every submission going through, the heartbeat runs to its end and schedules
the next cycle, stream `i` is never reported as deviated, and its trigger is submitted, with
the Timer line, exactly when `now > lastUpdated + windowSize`. -/
theorem missing_field_resolution (env : Env) (states0 states : List StreamState)
    (doc : JsVal) (i : Nat) (s : StreamState) (hcfg : env.streams ≠ [])
    (href : Refreshed env states0 states) (hfetch : env.fetchJson = Except.ok doc)
    (hs : states[i]? = some s) :
    (∀ e, env.jpValue doc (normalizeSelector s.selector) = Except.error e →
      ∃ e2, queryCoingeckoStreamsData env states = Except.error e2 ∧
        (heartbeat env states0).outcome = Outcome.threw e2 ∧
        Event.schedule ∉ (heartbeat env states0).events ∧
        ∀ j ev, Event.about j ev → ev ∉ (heartbeat env states0).events) ∧
    (env.jpValue doc (normalizeSelector s.selector) = Except.ok JsVal.undefined →
      (∀ t ∈ states, ∃ v, env.jpValue doc (normalizeSelector t.selector) = Except.ok v) →
      (∀ j, pullTriggerStream env j = Except.ok ()) →
      ∃ data, queryCoingeckoStreamsData env states = Except.ok data ∧
        data.length = states.length ∧ data[i]? = some BigNumber.nan ∧
        (heartbeat env states0).outcome = Outcome.returned ∧
        Event.schedule ∈ (heartbeat env states0).events ∧
        Event.deviationTrigger i ∉ (heartbeat env states0).events ∧
        (Event.pullTrigger i ∈ (heartbeat env states0).events ↔
          env.now i > s.lastUpdated + s.windowSize) ∧
        (Event.timerTrigger i ∈ (heartbeat env states0).events ↔
          env.now i > s.lastUpdated + s.windowSize)) :=
  ⟨fun e hthrow => throwing_lookup_aborts env states0 states doc s hcfg href hfetch
      (List.getElem?_mem hs) e hthrow,
    fun hmiss hothers hok =>
      undefined_lookup_gives_nan env states0 states doc i s hcfg href hfetch hs hmiss hothers
        hok⟩

theorem missing_field_resolution_witness :
    (∃ data, queryCoingeckoStreamsData (demoEnv partialDoc 4601 (fun _ => false)) demoStates =
        Except.ok data ∧
      data.length = demoStates.length ∧ data[1]? = some BigNumber.nan ∧
      (heartbeat (demoEnv partialDoc 4601 (fun _ => false)) demoStates).outcome =
        Outcome.returned ∧
      Event.schedule ∈ (heartbeat (demoEnv partialDoc 4601 (fun _ => false)) demoStates).events ∧
      Event.deviationTrigger 1 ∉
        (heartbeat (demoEnv partialDoc 4601 (fun _ => false)) demoStates).events ∧
      (Event.pullTrigger 1 ∈
          (heartbeat (demoEnv partialDoc 4601 (fun _ => false)) demoStates).events ↔
        (demoEnv partialDoc 4601 (fun _ => false)).now 1 > (1000 : Int) + 3600) ∧
      (Event.timerTrigger 1 ∈
          (heartbeat (demoEnv partialDoc 4601 (fun _ => false)) demoStates).events ↔
        (demoEnv partialDoc 4601 (fun _ => false)).now 1 > (1000 : Int) + 3600)) ∧
    (∃ e2, queryCoingeckoStreamsData (demoEnv JsVal.null 4601 (fun _ => false)) demoStates =
        Except.error e2 ∧
      (heartbeat (demoEnv JsVal.null 4601 (fun _ => false)) demoStates).outcome =
        Outcome.threw e2 ∧
      Event.schedule ∉ (heartbeat (demoEnv JsVal.null 4601 (fun _ => false)) demoStates).events ∧
      ∀ j ev, Event.about j ev →
        ev ∉ (heartbeat (demoEnv JsVal.null 4601 (fun _ => false)) demoStates).events) :=
  ⟨(missing_field_resolution (demoEnv partialDoc 4601 (fun _ => false)) demoStates demoStates
      partialDoc 1
      { stream := "0xbbbb", source := "coingecko", selector := "$.huobi-token.usd",
        windowSize := 3600, deviation := 0, decimal := 2, lastUpdated := 1000,
        lastPrice := BigNumber.fin 100 }
      (by decide) (Or.inr ⟨by decide, by decide⟩) rfl rfl).2 (by rfl)
      (by
        intro t ht
        simp only [demoStates, List.mem_cons, List.mem_singleton, List.not_mem_nil,
          or_false] at ht
        rcases ht with rfl | rfl
        · exact ⟨_, by rfl⟩
        · exact ⟨_, by rfl⟩)
      (fun _ => rfl),
    (missing_field_resolution (demoEnv JsVal.null 4601 (fun _ => false)) demoStates demoStates
      JsVal.null 1
      { stream := "0xbbbb", source := "coingecko", selector := "$.huobi-token.usd",
        windowSize := 3600, deviation := 0, decimal := 2, lastUpdated := 1000,
        lastPrice := BigNumber.fin 100 }
      (by decide) (Or.inr ⟨by decide, by decide⟩) rfl rfl).1
      "obj needs to be an object" (by rfl)⟩

theorem drop_of_getElem? {α : Type} (l : List α) (k : Nat) (a : α) (hk : l[k]? = some a) :
    l.drop k = a :: l.drop (k + 1) := by
  have hlt : k < l.length := by
    by_contra hge
    rw [List.getElem?_eq_none (by omega)] at hk
    cases hk
  rw [List.drop_eq_getElem_cons hlt]
  congr 1
  rw [List.getElem?_eq_getElem hlt] at hk
  exact Option.some.inj hk

theorem heartbeatLoop_fail (env : Env) (l : List (StreamState × BigNumber)) (i k : Nat)
    (sd : StreamState × BigNumber) (hk : l[k]? = some sd)
    (hok : ∀ j < k, pullTriggerStream env (i + j) = Except.ok ())
    (hf : fires env (i + k) sd) (e : Err)
    (hfail : pullTriggerStream env (i + k) = Except.error e) :
    heartbeatLoop env i l =
      ((heartbeatLoop env i (l.take k)).1 ++
        (triggerLog (i + k) (deviated sd.2 sd.1.lastPrice sd.1.deviation)
          (decide (env.now (i + k) > sd.1.lastUpdated + sd.1.windowSize)) ++
            [Event.pullTrigger (i + k)]), some e) := by
  rw [heartbeatLoop_split env k l i hok, drop_of_getElem? l k sd hk,
    heartbeatLoop_fire env _ sd _ hf, hfail]

theorem triggerLog_count (i j : Nat) (a b : Bool) :
    (triggerLog i a b).count (Event.pullTrigger j) = 0 := by
  unfold triggerLog
  split_ifs <;> simp

/-- C8, failing input. Both streams are expired and the broadcast for stream 0 fails. The
heartbeat ends with that error after the submission for stream 0: stream 1, whose condition
fires, gets no trigger, and the next cycle is not scheduled. -/
theorem failed_submission_stops_cycle :
    (demoEnv demoDoc 4601 (fun i => decide (i = 0))).now 1 > (1000 : Int) + 3600 ∧
    heartbeat (demoEnv demoDoc 4601 (fun i => decide (i = 0))) demoStates =
      ⟨demoStates, [Event.sync, Event.query, Event.timerTrigger 0, Event.pullTrigger 0],
        Outcome.threw "transaction failed"⟩ ∧
    Event.pullTrigger 1 ∉
      (heartbeat (demoEnv demoDoc 4601 (fun i => decide (i = 0))) demoStates).events ∧
    Event.schedule ∉
      (heartbeat (demoEnv demoDoc 4601 (fun i => decide (i = 0))) demoStates).events := by
  refine ⟨by decide, by decide, by decide, by decide⟩

/-- What a throwing submission does in general. If the condition of stream `i` fires and its
submission throws `e` (earlier submissions went through), the heartbeat ends with the error
`e` at stream `i`: the submission for stream `i` was attempted exactly once, nothing is
logged or submitted for any later stream, and the next cycle is not scheduled. -/
theorem submission_failure_aborts (env : Env) (states0 states : List StreamState)
    (data : List BigNumber) (hcfg : env.streams ≠ []) (href : Refreshed env states0 states)
    (hq : queryCoingeckoStreamsData env states = Except.ok data)
    (i : Nat) (s : StreamState) (d : BigNumber) (hs : states[i]? = some s)
    (hd : data[i]? = some d) (hok : ∀ j < i, pullTriggerStream env j = Except.ok ())
    (hfire : deviated d s.lastPrice s.deviation = true ∨
      env.now i > s.lastUpdated + s.windowSize)
    (e : Err) (hfail : pullTriggerStream env i = Except.error e) :
    (heartbeat env states0).outcome = Outcome.threw e ∧
    Event.schedule ∉ (heartbeat env states0).events ∧
    (heartbeat env states0).events.count (Event.pullTrigger i) = 1 ∧
    (∀ j, i < j → ∀ ev, Event.about j ev → ev ∉ (heartbeat env states0).events) := by
  obtain ⟨pre, hpre, heq⟩ := heartbeat_of_refreshed env states0 states hcfg href
  have hz := zip_getElem? states data i s d hs hd
  have hok0 : ∀ j < i, pullTriggerStream env (0 + j) = Except.ok () := by
    intro j hj; rw [Nat.zero_add]; exact hok j hj
  have hloop := heartbeatLoop_fail env (states.zip data) 0 i (s, d) hz hok0
    (by rw [Nat.zero_add]; exact hfire) e (by rw [Nat.zero_add]; exact hfail)
  rw [Nat.zero_add] at hloop
  have hev := heartbeatQuery_events env states pre data hq
  rw [hloop] at hev
  simp only [reduceCtorEq, if_false, List.append_nil] at hev
  have hA : ∀ ev ∈ (heartbeatLoop env 0 ((states.zip data).take i)).1,
      ∃ j, j < i ∧ Event.about j ev := by
    intro ev hm
    obtain ⟨j, _, h2, h3⟩ := heartbeatLoop_about env _ _ ev hm
    refine ⟨j, ?_, h3⟩
    simp only [List.length_take] at h2
    omega
  rw [heq]
  refine ⟨hev.2.1, ?_, ?_, ?_⟩
  · rw [hev.1]
    intro hm
    simp only [List.mem_append, List.mem_cons, List.mem_singleton, reduceCtorEq, false_or,
      or_false, List.not_mem_nil] at hm
    rcases hm with hm | hm | hm
    · rcases hpre with rfl | rfl <;> simp at hm
    · obtain ⟨j, _, h3⟩ := hA _ hm
      rcases h3 with h | h | h <;> cases h
    · rcases triggerLog_about _ _ _ _ hm with h | h | h <;> cases h
  · rw [hev.1]
    have hc : (heartbeatLoop env 0 ((states.zip data).take i)).1.count (Event.pullTrigger i)
        = 0 := by
      rw [List.count_eq_zero]
      intro hm
      obtain ⟨j, hj, h3⟩ := hA _ hm
      have := Event.about_unique h3 (Or.inr (Or.inr rfl))
      omega
    have hp : pre.count (Event.pullTrigger i) = 0 := by
      rcases hpre with rfl | rfl <;> simp
    simp [List.count_append, List.count_cons, hc, hp, triggerLog_count]
  · intro j hj ev hab hm
    rw [hev.1] at hm
    simp only [List.mem_append, List.mem_cons, List.mem_singleton, List.not_mem_nil,
      or_false] at hm
    rcases hm with hm | hm | (hm | hm | hm)
    · rcases hpre with rfl | rfl <;> rcases hab with h | h | h <;> simp [h] at hm
    · rcases hab with h | h | h <;> simp [h] at hm
    · obtain ⟨j2, hj2, h3⟩ := hA _ hm
      have := Event.about_unique hab h3
      omega
    · have := Event.about_unique hab (triggerLog_about _ _ _ _ hm)
      omega
    · have := Event.about_unique hab (Or.inr (Or.inr hm))
      omega

/-! ## `sync` and the first branch of `heartbeat` -/

theorem submission_failure_aborts_witness :
    (heartbeat (demoEnv demoDoc 4601 (fun i => decide (i = 0))) demoStates).outcome =
      Outcome.threw "transaction failed" ∧
    Event.schedule ∉
      (heartbeat (demoEnv demoDoc 4601 (fun i => decide (i = 0))) demoStates).events ∧
    (heartbeat (demoEnv demoDoc 4601 (fun i => decide (i = 0))) demoStates).events.count
      (Event.pullTrigger 0) = 1 ∧
    (∀ j, 0 < j → ∀ ev, Event.about j ev →
      ev ∉ (heartbeat (demoEnv demoDoc 4601 (fun i => decide (i = 0))) demoStates).events) :=
  submission_failure_aborts (demoEnv demoDoc 4601 (fun i => decide (i = 0))) demoStates
    demoStates [BigNumber.fin (1 * 10 ^ 2), BigNumber.fin (1 * 10 ^ 2)] (by decide)
    (Or.inr ⟨by decide, by decide⟩) (by rfl) 0
    { stream := "0xaaaa", source := "coingecko", selector := "$.bitcoin.usd",
      windowSize := 3600, deviation := 0, decimal := 2, lastUpdated := 1000,
      lastPrice := BigNumber.fin 100 }
    (BigNumber.fin (1 * 10 ^ 2)) rfl rfl (by intro j hj; omega) (Or.inr (by decide))
    "transaction failed" (by rfl)

theorem syncLoop_frame (env : Env) : ∀ (states : List StreamState) (k : Nat),
    (∀ i, i < states.length →
      ∃ d last, env.deviation (k + i) = Except.ok d ∧ env.latestResult (k + i) = Except.ok last) →
    ∃ states1, syncLoop env k states = (states1, none) ∧ states1.length = states.length ∧
      ∀ i s, states[i]? = some s →
        ∃ d p t, env.deviation (k + i) = Except.ok d ∧
          env.latestResult (k + i) = Except.ok (p, t) ∧
          states1[i]? = some
            { stream := s.stream, source := s.source, selector := s.selector,
              windowSize := s.windowSize, deviation := d, decimal := s.decimal,
              lastUpdated := t, lastPrice := p } := by
  intro states
  induction states with
  | nil =>
    intro k _
    exact ⟨[], rfl, rfl, by intro i s h; simp at h⟩
  | cons st rest ih =>
    intro k hreads
    obtain ⟨d, last, hd, hl⟩ := hreads 0 (by simp)
    rw [Nat.add_zero] at hd hl
    have hrest : ∀ i, i < rest.length → ∃ d last,
        env.deviation (k + 1 + i) = Except.ok d ∧
          env.latestResult (k + 1 + i) = Except.ok last := by
      intro i hi
      have := hreads (i + 1) (by simp only [List.length_cons]; omega)
      rwa [show k + (i + 1) = k + 1 + i by omega] at this
    obtain ⟨rest1, hr, hlen, hget⟩ := ih (k + 1) hrest
    have hstep : syncLoop env k (st :: rest) =
        ({ st with deviation := d, lastPrice := last.1, lastUpdated := last.2 } :: rest1,
          none) := by
      rw [syncLoop, hd]
      simp only
      rw [hl]
      simp only
      rw [hr]
    refine ⟨_, hstep, ?_, ?_⟩
    · simp [hlen]
    · intro i s hs
      cases i with
      | zero =>
        simp only [List.getElem?_cons_zero, Option.some.injEq] at hs
        subst hs
        exact ⟨d, last.1, last.2, by rw [Nat.add_zero]; exact hd,
          by rw [Nat.add_zero]; exact hl, by simp⟩
      | succ i =>
        simp only [List.getElem?_cons_succ] at hs ⊢
        obtain ⟨d2, p2, t2, h1, h2, h3⟩ := hget i s hs
        refine ⟨d2, p2, t2, ?_, ?_, h3⟩
        · rwa [show k + (i + 1) = k + 1 + i by omega]
        · rwa [show k + (i + 1) = k + 1 + i by omega]

/-- C9. When every `deviation()` and `latestResult()` read succeeds, `sync` returns normally
with as many entries in the same order; every entry keeps `stream`, `source`, `selector`,
`windowSize` and `decimal`, and its `deviation`, `lastPrice` and `lastUpdated` are exactly
the values returned by the reads made for that entry. -/
theorem sync_frame (env : Env) (states : List StreamState)
    (hreads : ∀ i, i < states.length →
      ∃ d last, env.deviation i = Except.ok d ∧ env.latestResult i = Except.ok last) :
    ∃ states1, sync env states = (states1, none) ∧ states1.length = states.length ∧
      ∀ i s, states[i]? = some s →
        ∃ d p t, env.deviation i = Except.ok d ∧ env.latestResult i = Except.ok (p, t) ∧
          states1[i]? = some
            { stream := s.stream, source := s.source, selector := s.selector,
              windowSize := s.windowSize, deviation := d, decimal := s.decimal,
              lastUpdated := t, lastPrice := p } := by
  have h := syncLoop_frame env states 0 (by simpa using hreads)
  simpa [sync] using h
theorem sync_frame_witness :
    sync (demoEnv demoDoc 4601 (fun _ => false)) staleStates = (demoStates, none) ∧
    ∃ states1, sync (demoEnv demoDoc 4601 (fun _ => false)) staleStates = (states1, none) ∧
      states1.length = staleStates.length ∧
      ∀ i s, staleStates[i]? = some s →
        ∃ d p t, (demoEnv demoDoc 4601 (fun _ => false)).deviation i = Except.ok d ∧
          (demoEnv demoDoc 4601 (fun _ => false)).latestResult i = Except.ok (p, t) ∧
          states1[i]? = some
            { stream := s.stream, source := s.source, selector := s.selector,
              windowSize := s.windowSize, deviation := d, decimal := s.decimal,
              lastUpdated := t, lastPrice := p } :=
  ⟨by decide, sync_frame (demoEnv demoDoc 4601 (fun _ => false)) staleStates
    (fun _ _ => ⟨0, (BigNumber.fin 100, 1000), rfl, rfl⟩)⟩

theorem heartbeatQuery_mem (env : Env) (states : List StreamState) (pre : List Event)
    (ev : Event) (h : ev ∈ (heartbeatQuery env states pre).events) :
    ev ∈ pre ∨ ev = Event.query ∨ ev = Event.schedule ∨ ∃ j, Event.about j ev := by
  unfold heartbeatQuery at h
  cases hq : queryCoingeckoStreamsData env states with
  | error e =>
    rw [hq] at h
    simp only [List.mem_append, List.mem_singleton] at h
    tauto
  | ok data =>
    rw [hq] at h
    simp only at h
    have hab := heartbeatLoop_about env (states.zip data) 0
    rcases hl : heartbeatLoop env 0 (states.zip data) with ⟨evs, _ | e⟩
    · rw [hl] at h hab
      simp only [List.mem_append, List.mem_cons, List.mem_singleton, List.not_mem_nil,
        or_false] at h
      rcases h with (h | h | h) | h
      · exact Or.inl h
      · exact Or.inr (Or.inl h)
      · obtain ⟨j, _, _, h3⟩ := hab ev h
        exact Or.inr (Or.inr (Or.inr ⟨j, h3⟩))
      · exact Or.inr (Or.inr (Or.inl h))
    · rw [hl] at h hab
      simp only [List.mem_append, List.mem_cons] at h
      rcases h with h | h | h
      · exact Or.inl h
      · exact Or.inr (Or.inl h)
      · obtain ⟨j, _, _, h3⟩ := hab ev h
        exact Or.inr (Or.inr (Or.inr ⟨j, h3⟩))

theorem heartbeatQuery_head (env : Env) (states : List StreamState) (first : Event) :
    (heartbeatQuery env states [first]).events.head? = some first ∧
    (heartbeatQuery env states [first]).states = states := by
  unfold heartbeatQuery
  cases queryCoingeckoStreamsData env states with
  | error e => simp
  | ok data =>
    simp only
    rcases heartbeatLoop env 0 (states.zip data) with ⟨evs, _ | e⟩ <;> simp

theorem heartbeatQuery_outcome (env : Env) (states : List StreamState) (pre : List Event)
    (code : Nat) : (heartbeatQuery env states pre).outcome ≠ Outcome.exit code := by
  unfold heartbeatQuery
  cases queryCoingeckoStreamsData env states with
  | error e => simp
  | ok data =>
    simp only
    rcases heartbeatLoop env 0 (states.zip data) with ⟨evs, _ | e⟩ <;> simp

theorem not_about (j : Nat) :
    ¬ Event.about j Event.init ∧ ¬ Event.about j Event.sync ∧ ¬ Event.about j Event.noStream := by
  unfold Event.about
  simp

/-- Events of a heartbeat that went past the first branch, given the marker of the stage
it ran. -/
theorem heartbeat_stage (c : Cycle) (states1 : List StreamState) (first other : Event)
    (env : Env) (r : Option Err)
    (hc : c = match r with
      | some e => (⟨states1, [first], Outcome.threw e⟩ : Cycle)
      | none => heartbeatQuery env states1 [first])
    (hfo : first ≠ other) (ho : other = Event.init ∨ other = Event.sync)
    (hf : first = Event.init ∨ first = Event.sync) :
    c.states = states1 ∧ c.events.head? = some first ∧ other ∉ c.events ∧
      Event.noStream ∉ c.events ∧ ∀ code, c.outcome ≠ Outcome.exit code := by
  cases r with
  | some e =>
    simp only at hc
    subst hc
    refine ⟨rfl, rfl, ?_, ?_, ?_⟩
    · simp only [List.mem_singleton]; exact fun h => hfo h.symm
    · simp only [List.mem_singleton]
      rcases hf with rfl | rfl <;> simp
    · intro code; simp
  | none =>
    simp only at hc
    subst hc
    have hh := heartbeatQuery_head env states1 first
    refine ⟨hh.2, hh.1, ?_, ?_, fun code => heartbeatQuery_outcome env states1 _ code⟩
    · intro hm
      rcases heartbeatQuery_mem env states1 _ _ hm with h | h | h | ⟨j, h⟩
      · simp only [List.mem_singleton] at h; exact hfo h.symm
      · rcases ho with rfl | rfl <;> cases h
      · rcases ho with rfl | rfl <;> cases h
      · rcases ho with rfl | rfl
        · exact (not_about j).1 h
        · exact (not_about j).2.1 h
    · intro hm
      rcases heartbeatQuery_mem env states1 _ _ hm with h | h | h | ⟨j, h⟩
      · simp only [List.mem_singleton] at h
        rcases hf with rfl | rfl <;> cases h
      · cases h
      · cases h
      · exact (not_about j).2.2 h

/-- C10. With no configured stream, `heartbeat` only logs the error and exits with status 1,
whatever the state array: no `init`, `sync`, price query, submission or scheduling. With a
configured stream and an empty state array it runs `init` first and never `sync`; with a
non-empty state array it runs `sync` first and never `init`; in both cases the state array
afterwards is the one left by that call and the process does not exit. -/
theorem heartbeat_dispatch (env : Env) (states : List StreamState) :
    (env.streams = [] → heartbeat env states = ⟨states, [Event.noStream], Outcome.exit 1⟩) ∧
    (env.streams ≠ [] → states = [] →
      (heartbeat env states).states = (init env).1 ∧
      (heartbeat env states).events.head? = some Event.init ∧
      Event.sync ∉ (heartbeat env states).events ∧
      Event.noStream ∉ (heartbeat env states).events ∧
      ∀ code, (heartbeat env states).outcome ≠ Outcome.exit code) ∧
    (env.streams ≠ [] → states ≠ [] →
      (heartbeat env states).states = (sync env states).1 ∧
      (heartbeat env states).events.head? = some Event.sync ∧
      Event.init ∉ (heartbeat env states).events ∧
      Event.noStream ∉ (heartbeat env states).events ∧
      ∀ code, (heartbeat env states).outcome ≠ Outcome.exit code) := by
  refine ⟨?_, ?_, ?_⟩
  · intro h
    simp [heartbeat, h]
  · intro hcfg hst
    have h1 : ¬ env.streams.length = 0 := fun e => hcfg (List.length_eq_zero.mp e)
    apply heartbeat_stage _ _ Event.init Event.sync env (init env).2 _ (by simp)
      (Or.inr rfl) (Or.inl rfl)
    unfold heartbeat
    simp only [h1, hst, if_false, List.length_nil, if_true]
    rcases init env with ⟨s1, _ | e⟩ <;> rfl
  · intro hcfg hst
    have h1 : ¬ env.streams.length = 0 := fun e => hcfg (List.length_eq_zero.mp e)
    have h2 : ¬ states.length = 0 := fun e => hst (List.length_eq_zero.mp e)
    apply heartbeat_stage _ _ Event.sync Event.init env (sync env states).2 _ (by simp)
      (Or.inl rfl) (Or.inr rfl)
    unfold heartbeat
    simp only [h1, h2, if_false]
    rcases sync env states with ⟨s1, _ | e⟩ <;> rfl

theorem heartbeat_dispatch_witness :
    heartbeat { demoEnv demoDoc 4601 (fun _ => false) with streams := [] } demoStates =
      ⟨demoStates, [Event.noStream], Outcome.exit 1⟩ ∧
    (heartbeat (demoEnv demoDoc 4601 (fun _ => false)) []).events.head? = some Event.init ∧
    (heartbeat (demoEnv demoDoc 4601 (fun _ => false)) staleStates).events.head? =
      some Event.sync :=
  ⟨(heartbeat_dispatch { demoEnv demoDoc 4601 (fun _ => false) with streams := [] }
      demoStates).1 rfl,
    ((heartbeat_dispatch (demoEnv demoDoc 4601 (fun _ => false)) []).2.1 (by decide) rfl).2.1,
    ((heartbeat_dispatch (demoEnv demoDoc 4601 (fun _ => false)) staleStates).2.2
      (by decide) (by decide)).2.1⟩

theorem normalizeSelector_spec_witness :
    normalizeSelector (dotJoin ["$", "huobi-token", "usd"]) =
      "$" ++ joinEmpty (["huobi-token", "usd"].map (fun seg => "[\"" ++ seg ++ "\"]")) :=
  normalizeSelector_spec.2.2.1 "$" ["huobi-token", "usd"] (by decide) (by decide)
end Guardian
